/-
Verification of the update-queue, fiber-tree scheduling, and commit-phase
logic of this React reconciler fork.

The definitions below are shallow embeddings of the JavaScript source:
  * `ReactUpdateQueue.js` — update queues (`enqueueUpdate`, `processUpdateQueue`,
    `getStateFromUpdate`)
  * `ReactFiber` (createWorkInProgress / resetWorkInProgress)
  * the work-loop module (markUpdateTimeFromFiberToRoot, resetChildExpirationTime,
    commitRootImpl, captureCommitPhaseError, computeExpirationForFiber)
  * `SchedulerWithReactIntegration` (flushSyncCallbackQueueImpl)

JavaScript numbers used as expiration times are modelled as `Int`; JavaScript
state values are an abstract type `V`, with the dynamic checks the source
performs on them (`x === null || x === undefined`, `Object.assign`) passed in
as parameters `isNull : V → Bool` and `assign : V → V → V`.
-/
import Mathlib

namespace React

/-! ## Expiration times (`ReactFiberExpirationTime`)

The module defining the numeric constants is not part of the sources here;
only their ordering contract is described. -/

/-- Modelled from the spec: `NoWork` marks "no pending work" (sentinel `0`). -/
def NoWork : Int := 0

/-- Modelled from the spec: `Never` is a reserved sentinel lower than all real
priorities, used to mark subtrees with no pending work (hidden subtrees). -/
def Never : Int := 1

/-- Modelled from the spec: `Sync` is the reserved maximum sentinel meaning
"synchronous, must not be deferred". -/
def Sync : Int := 1073741823

/-! ## Side-effect tags (`shared/ReactSideEffectTags`)

The tag module itself is not in the sources; the spec describes `effectTag`
as a bit-field.  Distinct bits, with `Placement` and `Update` as used by the
fiber module. -/

/-- Modelled from the spec: the empty effect bit-field. -/
def NoEffect : Nat := 0

/-- Modelled from the spec: "performed work" bookkeeping bit. -/
def PerformedWork : Nat := 1

/-- Modelled from the spec: the placement (insert) bit of the effect bit-field. -/
def Placement : Nat := 2

/-- Modelled from the spec: the update bit of the effect bit-field. -/
def UpdateTag : Nat := 4

/-- Modelled from the spec: the callback bit of the effect bit-field. -/
def Callback : Nat := 32

/-- Modelled from the spec: the "did capture" bit of the effect bit-field. -/
def DidCapture : Nat := 64

/-- Modelled from the spec: the "should capture" bit of the effect bit-field. -/
def ShouldCapture : Nat := 2048

/-- JavaScript's 32-bit bitwise complement `~m`, as an unsigned value: for
`m < 2^32` this is `2^32 - 1 - m`, which flips every bit of `m`. -/
def compl32 (m : Nat) : Nat := (2 ^ 32 - 1) - m

/-! ## Update queue (`ReactUpdateQueue.js`) -/

/-- `UpdateState = 0` -/
def UpdateState : Nat := 0

/-- `ReplaceState = 1` -/
def ReplaceState : Nat := 1

/-- `ForceUpdate = 2` -/
def ForceUpdate : Nat := 2

/-- `CaptureUpdate = 3` -/
def CaptureUpdate : Nat := 3

/-- An update's `payload`: either a plain state object (`typeof payload !==
'function'`), or an updater function of the previous state and next props.
Payload functions are Lean functions, hence pure. -/
inductive Payload (V P : Type) where
  | val : V → Payload V P
  | fn : (V → P → V) → Payload V P

/-- One element of the update list (`Update<State>` in `ReactUpdateQueue.js`).
`next` pointers are represented by the position in a `List`; `hasCallback`
records whether `update.callback !== null` (the callback body itself is only
invoked during the commit phase, not during processing). -/
structure Update (V P : Type) where
  expirationTime : Int
  tag : Nat
  payload : Payload V P
  hasCallback : Bool

/-- The queue (`UpdateQueue<State>`): `updates` is the chain reachable from
`firstUpdate` (so `firstUpdate === null` iff `updates = []`), and
`capturedUpdates` the chain from `firstCapturedUpdate`. -/
structure UpdateQueue (V P : Type) where
  baseState : V
  updates : List (Update V P)
  capturedUpdates : List (Update V P)

variable {V P : Type}

/-- The `partialState` / replace-state computation inside `getStateFromUpdate`:
`typeof payload === 'function' ? payload.call(instance, prevState, nextProps) :
payload`. -/
def payloadResult (pl : Payload V P) (prevState : V) (nextProps : P) : V :=
  match pl with
  | .val v => v
  | .fn f => f prevState nextProps

/-- Result of `getStateFromUpdate`: the returned state, plus the two pieces of
state the JS function mutates (`workInProgress.effectTag` and the module-level
`hasForceUpdate`). -/
structure GSUResult (V : Type) where
  state : V
  effectTag : Nat
  hasForceUpdate : Bool

/-- `getStateFromUpdate` (`ReactUpdateQueue.js`), with the DEV-only strict-mode
double invocation omitted. -/
def getStateFromUpdate (isNull : V → Bool)
    (assign : V → V → V) (update : Update V P) (prevState : V) (nextProps : P)
    (effectTag : Nat) (hasForceUpdate : Bool) : GSUResult V :=
  if update.tag = ReplaceState then
    ⟨payloadResult update.payload prevState nextProps, effectTag, hasForceUpdate⟩
  else if update.tag = CaptureUpdate ∨ update.tag = UpdateState then
    -- CaptureUpdate falls through into UpdateState after adjusting the effect tag.
    let effectTag' :=
      if update.tag = CaptureUpdate then
        (effectTag &&& compl32 ShouldCapture) ||| DidCapture
      else effectTag
    let partialState := payloadResult update.payload prevState nextProps
    if isNull partialState then
      -- Null and undefined are treated as no-ops.
      ⟨prevState, effectTag', hasForceUpdate⟩
    else
      ⟨assign prevState partialState, effectTag', hasForceUpdate⟩
  else if update.tag = ForceUpdate then
    ⟨prevState, effectTag, true⟩
  else
    ⟨prevState, effectTag, hasForceUpdate⟩

/-- The mutable locals of `processUpdateQueue` while walking the lists.
`newFirstUpdate`/`newFirstCapturedUpdate` hold the chain from the first skipped
update (the JS pointer into the persistent list is the suffix it heads). -/
structure PQLoopState (V P : Type) where
  newBaseState : V
  newFirstUpdate : Option (List (Update V P))
  newFirstCapturedUpdate : Option (List (Update V P))
  newExpirationTime : Int
  resultState : V
  effectTag : Nat
  effects : List (Update V P)
  capturedEffects : List (Update V P)
  hasForceUpdate : Bool

/-- The first `while (update !== null)` loop of `processUpdateQueue` over the
normal update list. -/
def runUpdates (isNull : V → Bool) (assign : V → V → V) (props : P)
    (renderExpirationTime : Int) :
    List (Update V P) → PQLoopState V P → PQLoopState V P
  | [], s => s
  | u :: rest, s =>
    if u.expirationTime < renderExpirationTime then
      -- This update does not have sufficient priority. Skip it.
      let s1 :=
        if s.newFirstUpdate.isNone then
          { s with newFirstUpdate := some (u :: rest), newBaseState := s.resultState }
        else s
      let s2 :=
        if s1.newExpirationTime < u.expirationTime then
          { s1 with newExpirationTime := u.expirationTime }
        else s1
      runUpdates isNull assign props renderExpirationTime rest s2
    else
      -- This update does have sufficient priority. Process it.
      let g := getStateFromUpdate isNull assign u s.resultState props
        s.effectTag s.hasForceUpdate
      let s1 := { s with resultState := g.state, effectTag := g.effectTag,
                         hasForceUpdate := g.hasForceUpdate }
      let s2 :=
        if u.hasCallback then
          { s1 with effectTag := s1.effectTag ||| Callback,
                    effects := s1.effects ++ [u] }
        else s1
      runUpdates isNull assign props renderExpirationTime rest s2

/-- The second loop of `processUpdateQueue`, over the captured update list. -/
def runCapturedUpdates (isNull : V → Bool) (assign : V → V → V) (props : P)
    (renderExpirationTime : Int) :
    List (Update V P) → PQLoopState V P → PQLoopState V P
  | [], s => s
  | u :: rest, s =>
    if u.expirationTime < renderExpirationTime then
      let s1 :=
        if s.newFirstCapturedUpdate.isNone then
          let s' := { s with newFirstCapturedUpdate := some (u :: rest) }
          if s'.newFirstUpdate.isNone then
            { s' with newBaseState := s'.resultState }
          else s'
        else s
      let s2 :=
        if s1.newExpirationTime < u.expirationTime then
          { s1 with newExpirationTime := u.expirationTime }
        else s1
      runCapturedUpdates isNull assign props renderExpirationTime rest s2
    else
      let g := getStateFromUpdate isNull assign u s.resultState props
        s.effectTag s.hasForceUpdate
      let s1 := { s with resultState := g.state, effectTag := g.effectTag,
                         hasForceUpdate := g.hasForceUpdate }
      let s2 :=
        if u.hasCallback then
          { s1 with effectTag := s1.effectTag ||| Callback,
                    capturedEffects := s1.capturedEffects ++ [u] }
        else s1
      runCapturedUpdates isNull assign props renderExpirationTime rest s2

/-- Everything `processUpdateQueue` leaves behind: the mutated queue, the
fiber's new `memoizedState` / `expirationTime` / `effectTag`, the collected
effect chains and the `hasForceUpdate` flag. -/
structure PQResult (V P : Type) where
  queue : UpdateQueue V P
  memoizedState : V
  expirationTime : Int
  effectTag : Nat
  effects : List (Update V P)
  capturedEffects : List (Update V P)
  hasForceUpdate : Bool

/-- `processUpdateQueue` (`ReactUpdateQueue.js`).  The clone performed by
`ensureWorkInProgressQueueIsAClone` is the identity on the queue's contents, so
it does not appear in this value-level model; `markRenderEventTimeAndConfig` /
`markUnprocessedUpdateTime` only write work-loop bookkeeping and are omitted. -/
def processUpdateQueue (isNull : V → Bool) (assign : V → V → V)
    (effectTag0 : Nat) (queue : UpdateQueue V P) (props : P)
    (renderExpirationTime : Int) : PQResult V P :=
  -- hasForceUpdate = false;
  let s0 : PQLoopState V P :=
    { newBaseState := queue.baseState
      newFirstUpdate := none
      newFirstCapturedUpdate := none
      newExpirationTime := NoWork
      resultState := queue.baseState
      effectTag := effectTag0
      effects := []
      capturedEffects := []
      hasForceUpdate := false }
  let s1 := runUpdates isNull assign props renderExpirationTime queue.updates s0
  let s2 := runCapturedUpdates isNull assign props renderExpirationTime
    queue.capturedUpdates s1
  let effectTag3 :=
    if s2.newFirstCapturedUpdate.isSome then s2.effectTag ||| Callback
    else s2.effectTag
  let newBaseState :=
    if s2.newFirstUpdate.isNone ∧ s2.newFirstCapturedUpdate.isNone then
      -- We processed every update, without skipping.
      s2.resultState
    else s2.newBaseState
  { queue :=
      { baseState := newBaseState
        updates := (s2.newFirstUpdate).getD []
        capturedUpdates := (s2.newFirstCapturedUpdate).getD [] }
    memoizedState := s2.resultState
    expirationTime := s2.newExpirationTime
    effectTag := effectTag3
    effects := s2.effects
    capturedEffects := s2.capturedEffects
    hasForceUpdate := s2.hasForceUpdate }

/-! ### Characterization lemmas for `processUpdateQueue` -/

/-- The state computed by applying a single sufficient-priority update: the
state projection of `getStateFromUpdate`. -/
def applyUpdate (isNull : V → Bool) (assign : V → V → V) (props : P)
    (s : V) (u : Update V P) : V :=
  if u.tag = ReplaceState then payloadResult u.payload s props
  else if u.tag = CaptureUpdate ∨ u.tag = UpdateState then
    let partialState := payloadResult u.payload s props
    if isNull partialState then s else assign s partialState
  else s

/-- The per-update step of the replay: skip (below threshold) or apply. -/
def condApply (isNull : V → Bool) (assign : V → V → V) (props : P)
    (renderExpirationTime : Int) (s : V) (u : Update V P) : V :=
  if u.expirationTime < renderExpirationTime then s
  else applyUpdate isNull assign props s u

theorem getStateFromUpdate_state (isNull : V → Bool) (assign : V → V → V)
    (u : Update V P) (s : V) (props : P) (et : Nat) (hfu : Bool) :
    (getStateFromUpdate isNull assign u s props et hfu).state =
      applyUpdate isNull assign props s u := by
  unfold getStateFromUpdate applyUpdate
  split
  · rfl
  · split
    · dsimp only
      split <;> rfl
    · split <;> rfl

section RunLemmas

variable (isNull : V → Bool) (assign : V → V → V) (props : P) (T : Int)

/-- Splitting a run at a fully-applied prefix.  (The remaining list only ever
enters the loop state when a first skip is recorded, which a no-skip prefix
never does.) -/
theorem runUpdates_append (l₁ l₂ : List (Update V P)) (s : PQLoopState V P)
    (h : ∀ u ∈ l₁, ¬ u.expirationTime < T) :
    runUpdates isNull assign props T (l₁ ++ l₂) s =
      runUpdates isNull assign props T l₂ (runUpdates isNull assign props T l₁ s) := by
  induction l₁ generalizing s with
  | nil => rfl
  | cons u rest ih =>
    simp only [List.cons_append, runUpdates]
    rw [if_neg (h u (List.mem_cons_self u rest)), if_neg (h u (List.mem_cons_self u rest))]
    have hrest : ∀ u ∈ rest, ¬ u.expirationTime < T :=
      fun v hv => h v (List.mem_cons_of_mem u hv)
    split
    · exact ih _ hrest
    · exact ih _ hrest

theorem runUpdates_resultState (l : List (Update V P)) (s : PQLoopState V P) :
    (runUpdates isNull assign props T l s).resultState =
      l.foldl (condApply isNull assign props T) s.resultState := by
  induction l generalizing s with
  | nil => rfl
  | cons u rest ih =>
    simp only [runUpdates, List.foldl_cons]
    split
    · rename_i hskip
      rw [ih]
      simp only [condApply, if_pos hskip]
      split <;> split <;> rfl
    · rename_i hskip
      rw [ih]
      simp only [condApply, if_neg hskip, getStateFromUpdate_state]
      split <;> rfl

/-- `runUpdates` never touches the captured-list pointer. -/
theorem runUpdates_newFirstCapturedUpdate (l : List (Update V P))
    (s : PQLoopState V P) :
    (runUpdates isNull assign props T l s).newFirstCapturedUpdate =
      s.newFirstCapturedUpdate := by
  induction l generalizing s with
  | nil => rfl
  | cons u rest ih =>
    simp only [runUpdates]
    split
    · rw [ih]; split <;> split <;> rfl
    · rw [ih]; split <;> rfl

/-- Once the first skipped update has been recorded, the pointer and the new
base state never change again. -/
theorem runUpdates_firstUpdate_frozen (l : List (Update V P))
    (s : PQLoopState V P) (x : List (Update V P))
    (hx : s.newFirstUpdate = some x) :
    (runUpdates isNull assign props T l s).newFirstUpdate = some x ∧
      (runUpdates isNull assign props T l s).newBaseState = s.newBaseState := by
  induction l generalizing s with
  | nil => exact ⟨hx, rfl⟩
  | cons u rest ih =>
    simp only [runUpdates]
    split
    · have h1 : ¬ s.newFirstUpdate.isNone := by simp [hx]
      rw [if_neg h1]
      split
      · exact ih _ hx
      · exact ih _ hx
    · split
      · exact ih _ hx
      · exact ih _ hx

/-- A run in which no update is skipped leaves the pointer and base state
untouched. -/
theorem runUpdates_no_skip (l : List (Update V P)) (s : PQLoopState V P)
    (h : ∀ u ∈ l, ¬ u.expirationTime < T) :
    (runUpdates isNull assign props T l s).newFirstUpdate = s.newFirstUpdate ∧
      (runUpdates isNull assign props T l s).newBaseState = s.newBaseState := by
  induction l generalizing s with
  | nil => exact ⟨rfl, rfl⟩
  | cons u rest ih =>
    simp only [runUpdates]
    rw [if_neg (h u (List.mem_cons_self u rest))]
    have hrest : ∀ u ∈ rest, ¬ u.expirationTime < T :=
      fun v hv => h v (List.mem_cons_of_mem u hv)
    split
    · exact ih _ hrest
    · exact ih _ hrest

/-- When no update is skipped, the conditional replay is the unconditional one. -/
theorem foldl_condApply_of_no_skip (l : List (Update V P)) (b : V)
    (h : ∀ u ∈ l, ¬ u.expirationTime < T) :
    l.foldl (condApply isNull assign props T) b =
      l.foldl (applyUpdate isNull assign props) b := by
  induction l generalizing b with
  | nil => rfl
  | cons u rest ih =>
    simp only [List.foldl_cons]
    rw [condApply, if_neg (h u (List.mem_cons_self u rest))]
    exact ih _ (fun v hv => h v (List.mem_cons_of_mem u hv))

end RunLemmas

/-- Either no element satisfies `p`, or the list splits at the first element
that does. -/
theorem first_skip_decomp {α : Type} (p : α → Prop) [DecidablePred p] :
    ∀ l : List α, (∀ x ∈ l, ¬ p x) ∨
      ∃ pre x post, l = pre ++ x :: post ∧ (∀ y ∈ pre, ¬ p y) ∧ p x
  | [] => Or.inl (by simp)
  | x :: rest => by
    by_cases hx : p x
    · exact Or.inr ⟨[], x, rest, rfl, by simp, hx⟩
    · rcases first_skip_decomp p rest with h | ⟨pre, y, post, hEq, hPre, hy⟩
      · exact Or.inl (by
          intro z hz
          rcases List.mem_cons.1 hz with rfl | hz
          · exact hx
          · exact h z hz)
      · refine Or.inr ⟨x :: pre, y, post, by rw [hEq]; rfl, ?_, hy⟩
        intro z hz
        rcases List.mem_cons.1 hz with rfl | hz
        · exact hx
        · exact hPre z hz

section ProcessLemmas

variable (isNull : V → Bool) (assign : V → V → V) (props : P) (et0 : Nat) (T : Int)

/-- The queue coming out of `processUpdateQueue` still has an empty captured
list when the incoming one did. -/
theorem processUpdateQueue_captured_empty (q : UpdateQueue V P)
    (hcap : q.capturedUpdates = []) :
    (processUpdateQueue isNull assign et0 q props T).queue.capturedUpdates = [] := by
  unfold processUpdateQueue
  rw [hcap]
  simp only [runCapturedUpdates, runUpdates_newFirstCapturedUpdate]
  rfl

/-- With no captured updates, the memoized state of a processing pass is the
insertion-order conditional replay of the update list over the base state. -/
theorem processUpdateQueue_memoizedState (q : UpdateQueue V P)
    (hcap : q.capturedUpdates = []) :
    (processUpdateQueue isNull assign et0 q props T).memoizedState =
      q.updates.foldl (condApply isNull assign props T) q.baseState := by
  unfold processUpdateQueue
  rw [hcap]
  simp only [runCapturedUpdates, runUpdates_resultState]

/-- If every update clears the threshold, the resulting queue is emptied and
its base state is the result state. -/
theorem processUpdateQueue_no_skip (q : UpdateQueue V P)
    (hcap : q.capturedUpdates = [])
    (h : ∀ u ∈ q.updates, ¬ u.expirationTime < T) :
    (processUpdateQueue isNull assign et0 q props T).queue.updates = [] ∧
      (processUpdateQueue isNull assign et0 q props T).queue.baseState =
        (processUpdateQueue isNull assign et0 q props T).memoizedState := by
  unfold processUpdateQueue
  rw [hcap]
  simp only [runCapturedUpdates]
  have h1 := runUpdates_no_skip isNull assign props T q.updates
    { newBaseState := q.baseState, newFirstUpdate := none,
      newFirstCapturedUpdate := none, newExpirationTime := NoWork,
      resultState := q.baseState, effectTag := et0, effects := [],
      capturedEffects := [], hasForceUpdate := false } h
  have h2 := runUpdates_newFirstCapturedUpdate isNull assign props T q.updates
    { newBaseState := q.baseState, newFirstUpdate := none,
      newFirstCapturedUpdate := none, newExpirationTime := NoWork,
      resultState := q.baseState, effectTag := et0, effects := [],
      capturedEffects := [], hasForceUpdate := false }
  refine ⟨?_, ?_⟩
  · show (runUpdates isNull assign props T q.updates _).newFirstUpdate.getD [] = []
    rw [h1.1]
    rfl
  · show (if _ ∧ _ then _ else _) = _
    rw [if_pos ⟨by rw [h1.1]; rfl, by rw [h2]; rfl⟩]

/-- A run whose very first update is skipped records that whole list as the
new first update, and the incoming result state as the new base state. -/
theorem runUpdates_skip_head (u0 : Update V P) (post : List (Update V P))
    (hu0 : u0.expirationTime < T) (s : PQLoopState V P)
    (hnone : s.newFirstUpdate = none) :
    (runUpdates isNull assign props T (u0 :: post) s).newFirstUpdate =
        some (u0 :: post) ∧
      (runUpdates isNull assign props T (u0 :: post) s).newBaseState =
        s.resultState ∧
      (runUpdates isNull assign props T (u0 :: post) s).newFirstCapturedUpdate =
        s.newFirstCapturedUpdate := by
  simp only [runUpdates, if_pos hu0, hnone, Option.isNone_none, if_true]
  split
  · refine ⟨?_, ?_, ?_⟩
    · exact (runUpdates_firstUpdate_frozen isNull assign props T post _
        (u0 :: post) rfl).1
    · exact (runUpdates_firstUpdate_frozen isNull assign props T post _
        (u0 :: post) rfl).2
    · exact runUpdates_newFirstCapturedUpdate isNull assign props T post _
  · refine ⟨?_, ?_, ?_⟩
    · exact (runUpdates_firstUpdate_frozen isNull assign props T post _
        (u0 :: post) rfl).1
    · exact (runUpdates_firstUpdate_frozen isNull assign props T post _
        (u0 :: post) rfl).2
    · exact runUpdates_newFirstCapturedUpdate isNull assign props T post _

/-- If the list splits at a first below-threshold update, the queue keeps that
update and everything after it, and rebases onto the state computed from the
applied prefix. -/
theorem processUpdateQueue_first_skip (q : UpdateQueue V P)
    (hcap : q.capturedUpdates = [])
    (pre : List (Update V P)) (u0 : Update V P) (post : List (Update V P))
    (hsplit : q.updates = pre ++ u0 :: post)
    (hpre : ∀ u ∈ pre, ¬ u.expirationTime < T)
    (hu0 : u0.expirationTime < T) :
    (processUpdateQueue isNull assign et0 q props T).queue.updates = u0 :: post ∧
      (processUpdateQueue isNull assign et0 q props T).queue.baseState =
        pre.foldl (applyUpdate isNull assign props) q.baseState := by
  unfold processUpdateQueue
  rw [hcap, hsplit]
  simp only [runCapturedUpdates]
  rw [runUpdates_append isNull assign props T pre (u0 :: post) _ hpre]
  have hmidFirst := (runUpdates_no_skip isNull assign props T pre
    { newBaseState := q.baseState, newFirstUpdate := none,
      newFirstCapturedUpdate := none, newExpirationTime := NoWork,
      resultState := q.baseState, effectTag := et0, effects := [],
      capturedEffects := [], hasForceUpdate := false } hpre).1
  have hmidRes := runUpdates_resultState isNull assign props T pre
    { newBaseState := q.baseState, newFirstUpdate := none,
      newFirstCapturedUpdate := none, newExpirationTime := NoWork,
      resultState := q.baseState, effectTag := et0, effects := [],
      capturedEffects := [], hasForceUpdate := false }
  have h := runUpdates_skip_head isNull assign props T u0 post hu0 _ hmidFirst
  refine ⟨?_, ?_⟩
  · show (runUpdates isNull assign props T (u0 :: post) _).newFirstUpdate.getD []
      = u0 :: post
    rw [h.1]
    rfl
  · show (if _ ∧ _ then _ else _) = _
    rw [if_neg (fun hc => by rw [h.1] at hc; exact absurd hc.1 (by simp))]
    rw [h.2.1, hmidRes, foldl_condApply_of_no_skip isNull assign props T pre _ hpre]

end ProcessLemmas

/-- A sequence of intermediate processing passes, each leaving its mutated
queue behind (the interrupted attempts of the claim). -/
def multiPass (isNull : V → Bool) (assign : V → V → V) (props : P)
    (passes : List Int) (q : UpdateQueue V P) : UpdateQueue V P :=
  passes.foldl
    (fun q' t => (processUpdateQueue isNull assign 0 q' props t).queue) q

theorem process_after_higher_pass (isNull : V → Bool) (assign : V → V → V)
    (props : P) (et0 et1 : Nat) (q : UpdateQueue V P)
    (hcap : q.capturedUpdates = []) (T T' : Int) (hT : T ≤ T') :
    (processUpdateQueue isNull assign et1
        ((processUpdateQueue isNull assign et0 q props T').queue) props
        T).memoizedState =
      (processUpdateQueue isNull assign et1 q props T).memoizedState := by
  have hcap' := processUpdateQueue_captured_empty isNull assign props et0 T' q hcap
  rw [processUpdateQueue_memoizedState isNull assign props et1 T _ hcap',
    processUpdateQueue_memoizedState isNull assign props et1 T q hcap]
  have hTT : ∀ u : Update V P, ¬ u.expirationTime < T' → ¬ u.expirationTime < T :=
    fun u h hlt => h (lt_of_lt_of_le hlt hT)
  rcases first_skip_decomp (fun u : Update V P => u.expirationTime < T')
      q.updates with hns | ⟨pre, u0, post, hsplit, hpre, hu0⟩
  · have hq := processUpdateQueue_no_skip isNull assign props et0 T' q hcap hns
    rw [hq.1, List.foldl_nil, hq.2]
    rw [processUpdateQueue_memoizedState isNull assign props et0 T' q hcap]
    rw [foldl_condApply_of_no_skip isNull assign props T' q.updates _ hns,
      foldl_condApply_of_no_skip isNull assign props T q.updates _
        (fun u hu => hTT u (hns u hu))]
  · have hq := processUpdateQueue_first_skip isNull assign props et0 T' q hcap
      pre u0 post hsplit hpre hu0
    rw [hq.1, hq.2, hsplit, List.foldl_append]
    rw [foldl_condApply_of_no_skip isNull assign props T pre _
      (fun u hu => hTT u (hpre u hu))]

/-- **C1** — Update-queue determinism: with pure payloads (payload functions
are Lean functions here, hence pure) and no captured (error-boundary) updates
pending, processing a queue at a final threshold `T` yields the same memoized
state whether or not any number of intermediate passes at thresholds `≥ T`
(higher-priority, interrupted attempts) mutated the queue first: the final
state is a function of the update sequence and the final threshold alone. -/
theorem c1_processUpdateQueue_deterministic (isNull : V → Bool)
    (assign : V → V → V) (props : P) (et0 : Nat) (q : UpdateQueue V P)
    (hcap : q.capturedUpdates = []) (T : Int) (passes : List Int)
    (hpasses : ∀ t ∈ passes, T ≤ t) :
    (processUpdateQueue isNull assign et0
        (multiPass isNull assign props passes q) props T).memoizedState =
      (processUpdateQueue isNull assign et0 q props T).memoizedState := by
  induction passes generalizing q with
  | nil => rfl
  | cons t ts ih =>
    have hcap' := processUpdateQueue_captured_empty isNull assign props 0 t q hcap
    have h1 : multiPass isNull assign props (t :: ts) q =
        multiPass isNull assign props ts
          ((processUpdateQueue isNull assign 0 q props t).queue) := rfl
    rw [h1, ih _ hcap' (fun t' ht' => hpasses t' (List.mem_cons_of_mem t ht'))]
    exact process_after_higher_pass isNull assign props 0 et0 q hcap T t
      (hpasses t (List.mem_cons_self t ts))

/-- Concrete JS values for the witnesses: a state is a list of naturals, the
empty list playing `null`/`undefined`, `Object.assign` modelled by
concatenation. -/
def wIsNull : List Nat → Bool := List.isEmpty

/-- Concrete merge operation for the witnesses. -/
def wAssign : List Nat → List Nat → List Nat := fun a b => a ++ b

/-- Concrete queue for the C1 witness: base state `[]`, one priority-1 and one
priority-2 update. -/
def wQueueC1 : UpdateQueue (List Nat) Unit :=
  { baseState := []
    updates := [⟨1, UpdateState, .val [1], false⟩, ⟨2, UpdateState, .val [2], false⟩]
    capturedUpdates := [] }

theorem c1_processUpdateQueue_deterministic_witness :
    (processUpdateQueue wIsNull wAssign 0
        (multiPass wIsNull wAssign () [2] wQueueC1) () 1).memoizedState =
      (processUpdateQueue wIsNull wAssign 0 wQueueC1 () 1).memoizedState :=
  c1_processUpdateQueue_deterministic wIsNull wAssign () 0 wQueueC1 rfl 1 [2]
    (by decide)

/-- **C2** — Skipped-update rebasing: processing at threshold `T`,
(a) if the update list splits as `pre ++ u0 :: post` with `pre` all at/above
threshold and `u0` the first below-threshold update, then `u0` becomes the new
`firstUpdate` — so every later update, regardless of its own priority, remains
in the queue — and the new `baseState` is the state computed so far from the
old `baseState` by the already-applied updates `pre`;
(b) if no update is skipped, the new `baseState` equals the result state and
the update list is emptied. -/
theorem c2_processUpdateQueue_rebase (isNull : V → Bool) (assign : V → V → V)
    (props : P) (et0 : Nat) (T : Int) (q : UpdateQueue V P)
    (hcap : q.capturedUpdates = []) :
    (∀ pre u0 post, q.updates = pre ++ u0 :: post →
        (∀ u ∈ pre, ¬ u.expirationTime < T) → u0.expirationTime < T →
        (processUpdateQueue isNull assign et0 q props T).queue.updates =
            u0 :: post ∧
          (processUpdateQueue isNull assign et0 q props T).queue.baseState =
            pre.foldl (applyUpdate isNull assign props) q.baseState) ∧
      ((∀ u ∈ q.updates, ¬ u.expirationTime < T) →
        (processUpdateQueue isNull assign et0 q props T).queue.updates = [] ∧
          (processUpdateQueue isNull assign et0 q props T).queue.baseState =
            (processUpdateQueue isNull assign et0 q props T).memoizedState) :=
  ⟨fun pre u0 post hsplit hpre hu0 =>
      processUpdateQueue_first_skip isNull assign props et0 T q hcap pre u0 post
        hsplit hpre hu0,
    fun hns => processUpdateQueue_no_skip isNull assign props et0 T q hcap hns⟩

/-- Concrete queue for the C2 witness: updates at priorities 5, 1, 5 processed
at threshold 3, so the middle one is the first skip. -/
def wQueueC2 : UpdateQueue (List Nat) Unit :=
  { baseState := []
    updates := [⟨5, UpdateState, .val [1], false⟩, ⟨1, UpdateState, .val [2], false⟩,
      ⟨5, UpdateState, .val [3], false⟩]
    capturedUpdates := [] }

theorem c2_processUpdateQueue_rebase_witness :
    (processUpdateQueue wIsNull wAssign 0 wQueueC2 () 3).queue.updates =
        ⟨1, UpdateState, .val [2], false⟩ ::
          [(⟨5, UpdateState, .val [3], false⟩ : Update (List Nat) Unit)] ∧
      (processUpdateQueue wIsNull wAssign 0 wQueueC2 () 3).queue.baseState =
        [(⟨5, UpdateState, .val [1], false⟩ : Update (List Nat) Unit)].foldl
          (applyUpdate wIsNull wAssign ()) wQueueC2.baseState :=
  (c2_processUpdateQueue_rebase wIsNull wAssign () 0 3 wQueueC2 rfl).1
    [⟨5, UpdateState, .val [1], false⟩] ⟨1, UpdateState, .val [2], false⟩
    [⟨5, UpdateState, .val [3], false⟩] rfl (by decide) (by decide)

/-- **C3** — No-op preservation: a queue holding a single merge-style
(`UpdateState`) update whose payload is `null` (or a payload function whose
result is `null`/`undefined`) processes to a memoized state that *is* the
previous state.  The merge operation `assign` is arbitrary here — in
particular one with `assign prev empty ≠ prev` — so the result is the very
`prevState` term (reference equality in the JS source), not an empty-object
merge. -/
theorem c3_processUpdateQueue_null_noop (isNull : V → Bool)
    (assign : V → V → V) (props : P) (et0 : Nat) (T : Int) (prev : V)
    (u : Update V P) (htag : u.tag = UpdateState)
    (hnull : isNull (payloadResult u.payload prev props) = true) :
    (processUpdateQueue isNull assign et0
        ⟨prev, [u], []⟩ props T).memoizedState = prev := by
  rw [processUpdateQueue_memoizedState isNull assign props et0 T _ rfl]
  show [u].foldl (condApply isNull assign props T) prev = prev
  simp only [List.foldl_cons, List.foldl_nil, condApply]
  split
  · rfl
  · rw [applyUpdate, if_neg (by rw [htag]; decide),
      if_pos (Or.inr htag)]
    simp only [hnull, if_true]

theorem c3_processUpdateQueue_null_noop_witness :
    (processUpdateQueue wIsNull wAssign 0
        ⟨[5], [⟨7, UpdateState, .val [], false⟩], []⟩ () 0).memoizedState = [5] :=
  c3_processUpdateQueue_null_noop wIsNull wAssign () 0 0 [5]
    ⟨7, UpdateState, .val [], false⟩ rfl rfl

/-! ## `enqueueUpdate` over the shared persistent update list (C4)

`enqueueUpdate` mutates heap structure: the two fibers' queue objects and the
`next` pointers of update nodes shared between both queues.  Updates are
addressed by `Nat` ids; `uNext` is the heap of `next` pointers; queue objects
live in a store `qRec` so that object identity (`queue1 === queue2`) is
meaningful. -/

/-- A queue object as `enqueueUpdate` sees it (effect pointers play no role
in enqueueing and stay `none` on fresh/cloned queues). -/
structure QueueRec (V : Type) where
  baseState : V
  firstUpdate : Option Nat
  lastUpdate : Option Nat
  firstCapturedUpdate : Option Nat
  lastCapturedUpdate : Option Nat

/-- `createUpdateQueue`. -/
def createUpdateQueueRec (baseState : V) : QueueRec V :=
  ⟨baseState, none, none, none, none⟩

/-- `cloneUpdateQueue`: copies `baseState`, `firstUpdate`, `lastUpdate`;
captured/effect pointers start `null`. -/
def cloneUpdateQueueRec (currentQueue : QueueRec V) : QueueRec V :=
  ⟨currentQueue.baseState, currentQueue.firstUpdate, currentQueue.lastUpdate,
    none, none⟩

/-- The mutable state visible to `enqueueUpdate`: the update nodes' `next`
pointers, the store of queue objects, the allocation counter, and the fiber /
alternate `updateQueue` and `memoizedState` fields. -/
structure EnqState (V : Type) where
  uNext : Nat → Option Nat
  qRec : Nat → QueueRec V
  qCount : Nat
  fiberQ : Option Nat
  altQ : Option Nat
  hasAlternate : Bool
  fiberMemoizedState : V
  altMemoizedState : V

/-- `appendUpdateToQueue(queue, update)`. -/
def appendUpdateToQueue (s : EnqState V) (qid : Nat) (update : Nat) :
    EnqState V :=
  let q := s.qRec qid
  match q.lastUpdate with
  | none =>
    -- Queue is empty: firstUpdate = lastUpdate = update.
    { s with qRec := fun i =>
        if i = qid then
          { q with firstUpdate := some update, lastUpdate := some update }
        else s.qRec i }
  | some last =>
    -- queue.lastUpdate.next = update; queue.lastUpdate = update.
    { s with
        uNext := fun n => if n = last then some update else s.uNext n
        qRec := fun i =>
          if i = qid then { q with lastUpdate := some update } else s.qRec i }

/-- The first half of `enqueueUpdate`: lazily create/clone the one or two
queue objects, returning the state plus `queue1`'s id and `queue2`'s optional
id. -/
def resolveQueues (s : EnqState V) : EnqState V × Nat × Option Nat :=
  if s.hasAlternate = false then
      -- There's only one fiber.
      match s.fiberQ with
      | none =>
        let q1 := s.qCount
        ({ s with
            qRec := fun i =>
              if i = q1 then createUpdateQueueRec s.fiberMemoizedState
              else s.qRec i
            qCount := s.qCount + 1
            fiberQ := some q1 }, q1, none)
      | some q1 => (s, q1, none)
    else
      -- There are two owners.
      match s.fiberQ, s.altQ with
      | none, none =>
        -- Neither fiber has an update queue. Create new ones.
        let q1 := s.qCount
        let q2 := s.qCount + 1
        ({ s with
            qRec := fun i =>
              if i = q1 then createUpdateQueueRec s.fiberMemoizedState
              else if i = q2 then createUpdateQueueRec s.altMemoizedState
              else s.qRec i
            qCount := s.qCount + 2
            fiberQ := some q1
            altQ := some q2 }, q1, some q2)
      | none, some q2 =>
        -- Only one fiber has an update queue. Clone to create a new one.
        let q1 := s.qCount
        ({ s with
            qRec := fun i =>
              if i = q1 then cloneUpdateQueueRec (s.qRec q2) else s.qRec i
            qCount := s.qCount + 1
            fiberQ := some q1 }, q1, some q2)
      | some q1, none =>
        let q2 := s.qCount
        ({ s with
            qRec := fun i =>
              if i = q2 then cloneUpdateQueueRec (s.qRec q1) else s.qRec i
            qCount := s.qCount + 1
            altQ := some q2 }, q1, some q2)
      | some q1, some q2 => (s, q1, some q2)

/-- The second half of `enqueueUpdate`: append `update` — to a single queue,
to both queues, or (both non-empty, structural sharing) physically once with
`queue2.lastUpdate` fixed up. -/
def appendPhase (s' : EnqState V) (q1 : Nat) (oq2 : Option Nat)
    (update : Nat) : EnqState V :=
  match oq2 with
  | none =>
    -- There's only a single queue.
    appendUpdateToQueue s' q1 update
  | some q2 =>
    if q1 = q2 then appendUpdateToQueue s' q1 update
    else if (s'.qRec q1).lastUpdate = none ∨ (s'.qRec q2).lastUpdate = none then
      -- We must add the update to both queues.
      appendUpdateToQueue (appendUpdateToQueue s' q1 update) q2 update
    else
      -- Both queues are non-empty. The last update is the same in both lists
      -- because of structural sharing, so only append to one of the lists,
      -- but still update the `lastUpdate` pointer of queue2.
      let s'' := appendUpdateToQueue s' q1 update
      { s'' with qRec := fun i =>
          if i = q2 then { s''.qRec q2 with lastUpdate := some update }
          else s''.qRec i }

/-- `enqueueUpdate(fiber, update)` (`ReactUpdateQueue.js`). -/
def enqueueUpdate (s : EnqState V) (update : Nat) : EnqState V :=
  let resolved := resolveQueues s
  appendPhase resolved.1 resolved.2.1 resolved.2.2 update

/-- The nil-terminated chain of update ids reachable from `start` by following
the `next` pointers `σ` — the traversal `enqueueUpdate`'s no-loss guarantee is
about. -/
inductive isChain (σ : Nat → Option Nat) : Option Nat → List Nat → Prop
  | nil : isChain σ none []
  | cons {i : Nat} {l : List Nat} :
      isChain σ (σ i) l → isChain σ (some i) (i :: l)

theorem isChain_nil_inv {σ : Nat → Option Nat} {o : Option Nat}
    (h : isChain σ o []) : o = none := by
  cases h
  rfl

theorem isChain_deterministic {σ : Nat → Option Nat} {o : Option Nat}
    {l₁ l₂ : List Nat} (h₁ : isChain σ o l₁) (h₂ : isChain σ o l₂) :
    l₁ = l₂ := by
  induction h₁ generalizing l₂ with
  | nil => cases h₂; rfl
  | cons h ih =>
    cases h₂ with
    | cons h' => rw [ih h']

/-- Every suffix of a chain headed by `j` is itself the chain from `j`. -/
theorem isChain_suffix {σ : Nat → Option Nat} {o : Option Nat}
    (l₁ : List Nat) {j : Nat} {l₂ : List Nat}
    (h : isChain σ o (l₁ ++ j :: l₂)) : isChain σ (some j) (j :: l₂) := by
  induction l₁ generalizing o with
  | nil =>
    simp only [List.nil_append] at h
    cases h with
    | cons h' => exact isChain.cons h'
  | cons i rest ih =>
    cases h with
    | cons h' => exact ih h'

theorem isChain_nodup {σ : Nat → Option Nat} {o : Option Nat} {l : List Nat}
    (h : isChain σ o l) : l.Nodup := by
  induction h with
  | nil => exact List.nodup_nil
  | cons h ih =>
    rename_i i l
    refine List.nodup_cons.2 ⟨?_, ih⟩
    intro hmem
    rcases List.append_of_mem hmem with ⟨l₁, l₂, rfl⟩
    have h₂ := isChain_suffix l₁ h
    have h₁ : isChain σ (some i) (i :: (l₁ ++ i :: l₂)) := isChain.cons h
    have := isChain_deterministic h₂ h₁
    have hlen := congrArg List.length this
    simp only [List.length_cons, List.length_append] at hlen
    omega

/-- Modifying a `next` pointer outside a chain leaves the chain intact. -/
theorem isChain_update_of_not_mem {σ : Nat → Option Nat} {o : Option Nat}
    {l : List Nat} (h : isChain σ o l) (t u : Nat) (ht : t ∉ l) :
    isChain (fun n => if n = t then some u else σ n) o l := by
  induction h with
  | nil => exact isChain.nil
  | cons h ih =>
    rename_i i l'
    have hit : i ≠ t := fun he => ht (he ▸ List.mem_cons_self i l')
    have := ih (fun hm => ht (List.mem_cons_of_mem i hm))
    refine isChain.cons ?_
    show isChain _ (if i = t then some u else σ i) l'
    rw [if_neg hit]
    exact this

/-- Pointing the last node of a chain at a fresh node extends the chain. -/
theorem isChain_snoc {σ : Nat → Option Nat} {o : Option Nat} {l : List Nat}
    (h : isChain σ o l) (t u : Nat) (hlast : l.getLast? = some t)
    (hu : u ∉ l) (hfree : σ u = none) :
    isChain (fun n => if n = t then some u else σ n) o (l ++ [u]) := by
  induction h with
  | nil => simp at hlast
  | cons h ih =>
    rename_i i l'
    cases l' with
    | nil =>
      -- the chain is [i] and i = t
      have hit : i = t := by simpa using hlast
      subst hit
      refine isChain.cons ?_
      show isChain _ (if i = i then some u else σ i) [u]
      rw [if_pos rfl]
      refine isChain.cons ?_
      show isChain _ (if u = i then some u else σ u) []
      rw [if_neg (by simpa using hu), hfree]
      exact isChain.nil
    | cons j l₂ =>
      have hne : i ≠ t := by
        have hnd := isChain_nodup (isChain.cons h)
        have htmem : t ∈ j :: l₂ := by
          have h1 : (j :: l₂).getLast? = some t := by simpa using hlast
          rcases List.mem_getLast?_eq_getLast (Option.mem_def.2 h1) with ⟨hne, rfl⟩
          exact List.getLast_mem hne
        intro he
        subst he
        exact (List.nodup_cons.1 hnd).1 htmem
      have hl2 : (j :: l₂).getLast? = some t := by simpa using hlast
      have hu' : u ∉ j :: l₂ := fun hm => hu (List.mem_cons_of_mem i hm)
      refine isChain.cons ?_
      show isChain _ (if i = t then some u else σ i) ((j :: l₂) ++ [u])
      rw [if_neg hne]
      exact ih hl2 hu'

/-- The invariant tying a queue object to the update chain its `firstUpdate`
heads: `lastUpdate` points at the chain's last node. -/
def queueWF (σ : Nat → Option Nat) (q : QueueRec V) (l : List Nat) : Prop :=
  isChain σ q.firstUpdate l ∧ q.lastUpdate = l.getLast?

theorem queueWF_empty {σ : Nat → Option Nat} {q : QueueRec V} {l : List Nat}
    (h : queueWF σ q l) (hnone : q.lastUpdate = none) : l = [] := by
  have := h.2
  rw [hnone] at this
  exact (List.getLast?_eq_none_iff.1 this.symm)

theorem queueWF_last_mem {σ : Nat → Option Nat} {q : QueueRec V} {l : List Nat}
    (h : queueWF σ q l) {t : Nat} (hsome : q.lastUpdate = some t) : t ∈ l := by
  have h1 : l.getLast? = some t := by rw [← h.2, hsome]
  rcases List.mem_getLast?_eq_getLast (Option.mem_def.2 h1) with ⟨hne, rfl⟩
  exact List.getLast_mem hne

theorem appendUpdateToQueue_qRec_ne (s : EnqState V) (qid u qid' : Nat)
    (h : qid' ≠ qid) :
    (appendUpdateToQueue s qid u).qRec qid' = s.qRec qid' := by
  cases hlast : (s.qRec qid).lastUpdate <;>
    simp only [appendUpdateToQueue, hlast] <;> exact if_neg h

theorem appendUpdateToQueue_fiberQ (s : EnqState V) (qid u : Nat) :
    (appendUpdateToQueue s qid u).fiberQ = s.fiberQ := by
  cases hlast : (s.qRec qid).lastUpdate <;>
    simp only [appendUpdateToQueue, hlast]

theorem appendUpdateToQueue_altQ (s : EnqState V) (qid u : Nat) :
    (appendUpdateToQueue s qid u).altQ = s.altQ := by
  cases hlast : (s.qRec qid).lastUpdate <;>
    simp only [appendUpdateToQueue, hlast]

theorem appendUpdateToQueue_uNext_ne (s : EnqState V) (qid u n : Nat)
    (h : ∀ t, (s.qRec qid).lastUpdate = some t → n ≠ t) :
    (appendUpdateToQueue s qid u).uNext n = s.uNext n := by
  cases hlast : (s.qRec qid).lastUpdate with
  | none => simp only [appendUpdateToQueue, hlast]
  | some t =>
    simp only [appendUpdateToQueue, hlast]
    exact if_neg (h t hlast)

theorem appendUpdateToQueue_uNext_of_empty (s : EnqState V) (qid u : Nat)
    (h : (s.qRec qid).lastUpdate = none) :
    (appendUpdateToQueue s qid u).uNext = s.uNext := by
  simp only [appendUpdateToQueue, h]

theorem appendUpdateToQueue_uNext_of_last (s : EnqState V) (qid u t : Nat)
    (h : (s.qRec qid).lastUpdate = some t) :
    (appendUpdateToQueue s qid u).uNext =
      fun n => if n = t then some u else s.uNext n := by
  simp only [appendUpdateToQueue, h]

/-- `appendUpdateToQueue` extends the appended-to queue's chain by the new
update. -/
theorem appendUpdateToQueue_wf (s : EnqState V) (qid u : Nat) (l : List Nat)
    (h : queueWF s.uNext (s.qRec qid) l) (hu : u ∉ l)
    (hfree : s.uNext u = none) :
    queueWF (appendUpdateToQueue s qid u).uNext
      ((appendUpdateToQueue s qid u).qRec qid) (l ++ [u]) := by
  cases hlast : (s.qRec qid).lastUpdate with
  | none =>
    have hl : l = [] := queueWF_empty h hlast
    subst hl
    simp only [appendUpdateToQueue, hlast, if_true]
    constructor
    · exact isChain.cons (by rw [hfree]; exact isChain.nil)
    · rfl
  | some t =>
    have hlget : l.getLast? = some t := by rw [← h.2, hlast]
    simp only [appendUpdateToQueue, hlast, if_true]
    constructor
    · exact isChain_snoc h.1 t u hlget hu hfree
    · show some u = (l ++ [u]).getLast?
      rw [List.getLast?_append_cons]
      rfl

/-- `appendUpdateToQueue` leaves intact any chain its target's last node does
not belong to. -/
theorem appendUpdateToQueue_preserves_chain (s : EnqState V) (qid u : Nat)
    {o : Option Nat} {l' : List Nat} (h' : isChain s.uNext o l')
    (ht : ∀ t, (s.qRec qid).lastUpdate = some t → t ∉ l') :
    isChain (appendUpdateToQueue s qid u).uNext o l' := by
  cases hlast : (s.qRec qid).lastUpdate with
  | none => rw [appendUpdateToQueue_uNext_of_empty s qid u hlast]; exact h'
  | some t =>
    rw [appendUpdateToQueue_uNext_of_last s qid u t hlast]
    exact isChain_update_of_not_mem h' t u (ht t hlast)

/-- The two-distinct-queue-objects part of `enqueueUpdate`'s append phase:
whether one queue is empty (physical append to both) or both are non-empty
(structural sharing, single physical append plus a `lastUpdate` fix-up),
both queues' chains get extended by the update. -/
theorem appendPhase_two_queues (s' : EnqState V) (u q1 q2 : Nat)
    (hne : q1 ≠ q2) (l1 l2 : List Nat)
    (h1 : queueWF s'.uNext (s'.qRec q1) l1) (hu1 : u ∉ l1)
    (h2 : queueWF s'.uNext (s'.qRec q2) l2) (hu2 : u ∉ l2)
    (hfree : s'.uNext u = none)
    (hshare : (s'.qRec q1).lastUpdate ≠ none →
      (s'.qRec q2).lastUpdate ≠ none →
      (s'.qRec q1).lastUpdate = (s'.qRec q2).lastUpdate) :
    isChain (appendPhase s' q1 (some q2) u).uNext
        ((appendPhase s' q1 (some q2) u).qRec q1).firstUpdate (l1 ++ [u]) ∧
      isChain (appendPhase s' q1 (some q2) u).uNext
        ((appendPhase s' q1 (some q2) u).qRec q2).firstUpdate (l2 ++ [u]) := by
  have hfreeA : (appendUpdateToQueue s' q1 u).uNext u = none := by
    rw [appendUpdateToQueue_uNext_ne s' q1 u u
      (fun t ht hut => hu1 (hut ▸ queueWF_last_mem h1 ht))]
    exact hfree
  have hq2rec : (appendUpdateToQueue s' q1 u).qRec q2 = s'.qRec q2 :=
    appendUpdateToQueue_qRec_ne s' q1 u q2 (Ne.symm hne)
  have hwf1 : queueWF (appendUpdateToQueue s' q1 u).uNext
      ((appendUpdateToQueue s' q1 u).qRec q1) (l1 ++ [u]) :=
    appendUpdateToQueue_wf s' q1 u l1 h1 hu1 hfree
  simp only [appendPhase, if_neg hne]
  by_cases hemp : (s'.qRec q1).lastUpdate = none ∨ (s'.qRec q2).lastUpdate = none
  · rw [if_pos hemp]
    -- Physical append to both queues.
    have h2A : queueWF (appendUpdateToQueue s' q1 u).uNext
        ((appendUpdateToQueue s' q1 u).qRec q2) l2 := by
      rw [hq2rec]
      refine ⟨?_, h2.2⟩
      refine appendUpdateToQueue_preserves_chain s' q1 u h2.1 ?_
      intro t htl
      rcases hemp with he1 | he2
      · rw [he1] at htl; cases htl
      · rw [queueWF_empty h2 he2]; exact List.not_mem_nil t
    constructor
    · -- queue1's extended chain survives the second physical append
      have hrec : (appendUpdateToQueue (appendUpdateToQueue s' q1 u) q2 u).qRec q1
          = (appendUpdateToQueue s' q1 u).qRec q1 :=
        appendUpdateToQueue_qRec_ne _ q2 u q1 hne
      rw [hrec]
      refine appendUpdateToQueue_preserves_chain _ q2 u hwf1.1 ?_
      intro t2 ht2
      rw [hq2rec] at ht2
      rcases hemp with he1 | he2
      · have hl1 : l1 = [] := queueWF_empty h1 he1
        have ht2mem : t2 ∈ l2 := queueWF_last_mem h2 ht2
        subst hl1
        simp only [List.nil_append, List.mem_singleton]
        exact fun he => hu2 (he ▸ ht2mem)
      · rw [he2] at ht2; cases ht2
    · exact (appendUpdateToQueue_wf _ q2 u l2 h2A hu2 hfreeA).1
  · rw [if_neg hemp]
    -- Both queues non-empty: single physical append, fix up queue2.lastUpdate.
    push_neg at hemp
    obtain ⟨t1, hlast1⟩ := Option.ne_none_iff_exists'.1 hemp.1
    obtain ⟨t2, hlast2⟩ := Option.ne_none_iff_exists'.1 hemp.2
    have ht12 : t1 = t2 := by
      have := hshare hemp.1 hemp.2
      rw [hlast1, hlast2] at this
      exact Option.some_injective _ this
    subst ht12
    constructor
    · show isChain (appendUpdateToQueue s' q1 u).uNext
        ((if q1 = q2 then _ else (appendUpdateToQueue s' q1 u).qRec q1)
          : QueueRec V).firstUpdate (l1 ++ [u])
      rw [if_neg hne]
      exact hwf1.1
    · show isChain (appendUpdateToQueue s' q1 u).uNext
        ((if q2 = q2 then
            { (appendUpdateToQueue s' q1 u).qRec q2 with lastUpdate := some u }
          else (appendUpdateToQueue s' q1 u).qRec q2) : QueueRec V).firstUpdate
        (l2 ++ [u])
      rw [if_pos rfl]
      show isChain (appendUpdateToQueue s' q1 u).uNext
        ((appendUpdateToQueue s' q1 u).qRec q2).firstUpdate (l2 ++ [u])
      rw [hq2rec, appendUpdateToQueue_uNext_of_last s' q1 u t1 hlast1]
      have hlget2 : l2.getLast? = some t1 := by rw [← h2.2, hlast2]
      exact isChain_snoc h2.1 t1 u hlget2 hu2 hfree

theorem appendPhase_fiberQ (s' : EnqState V) (q1 : Nat) (oq2 : Option Nat)
    (u : Nat) : (appendPhase s' q1 oq2 u).fiberQ = s'.fiberQ := by
  cases oq2 with
  | none => exact appendUpdateToQueue_fiberQ s' q1 u
  | some q2 =>
    simp only [appendPhase]
    split
    · exact appendUpdateToQueue_fiberQ s' q1 u
    · split
      · rw [appendUpdateToQueue_fiberQ, appendUpdateToQueue_fiberQ]
      · show (appendUpdateToQueue s' q1 u).fiberQ = s'.fiberQ
        exact appendUpdateToQueue_fiberQ s' q1 u

theorem appendPhase_altQ (s' : EnqState V) (q1 : Nat) (oq2 : Option Nat)
    (u : Nat) : (appendPhase s' q1 oq2 u).altQ = s'.altQ := by
  cases oq2 with
  | none => exact appendUpdateToQueue_altQ s' q1 u
  | some q2 =>
    simp only [appendPhase]
    split
    · exact appendUpdateToQueue_altQ s' q1 u
    · split
      · rw [appendUpdateToQueue_altQ, appendUpdateToQueue_altQ]
      · show (appendUpdateToQueue s' q1 u).altQ = s'.altQ
        exact appendUpdateToQueue_altQ s' q1 u

/-- **C4** — Dual-queue no-loss: after `enqueueUpdate(fiber, update)` the
update is reachable by following the `next` chain from
`fiber.updateQueue.firstUpdate` and — whenever the fiber has an alternate —
also from `alternate.updateQueue.firstUpdate`; this covers diverged processed
positions (the two chains are unrelated except for the invariant below) and
the structural-sharing case where both queues are non-empty and the update is
physically appended once.  Hypotheses: the enqueued node is fresh (its `next`
is null and it is in neither chain), each existing queue heads a well-formed
chain whose last node `lastUpdate` points at, queue ids are below the
allocation counter, and non-empty queue pairs share their last node — the
structural-sharing invariant the source relies on. -/
theorem c4_enqueueUpdate_reachable (s : EnqState V) (u : Nat)
    (hfree : s.uNext u = none)
    (hWF1 : ∀ qid, s.fiberQ = some qid → qid < s.qCount ∧
      ∃ l, queueWF s.uNext (s.qRec qid) l ∧ u ∉ l)
    (hWF2 : ∀ qid, s.altQ = some qid → qid < s.qCount ∧
      ∃ l, queueWF s.uNext (s.qRec qid) l ∧ u ∉ l)
    (hshare : ∀ q1 q2, s.fiberQ = some q1 → s.altQ = some q2 →
      (s.qRec q1).lastUpdate ≠ none → (s.qRec q2).lastUpdate ≠ none →
      (s.qRec q1).lastUpdate = (s.qRec q2).lastUpdate) :
    (∃ q1 l, (enqueueUpdate s u).fiberQ = some q1 ∧
        isChain (enqueueUpdate s u).uNext
          ((enqueueUpdate s u).qRec q1).firstUpdate l ∧ u ∈ l) ∧
      (s.hasAlternate = true →
        ∃ q2 l, (enqueueUpdate s u).altQ = some q2 ∧
          isChain (enqueueUpdate s u).uNext
            ((enqueueUpdate s u).qRec q2).firstUpdate l ∧ u ∈ l) := by
  cases halt : s.hasAlternate with
  | false =>
    cases hfq : s.fiberQ with
    | none =>
      set s1 : EnqState V :=
        { s with
            qRec := fun i =>
              if i = s.qCount then createUpdateQueueRec s.fiberMemoizedState
              else s.qRec i
            qCount := s.qCount + 1
            fiberQ := some s.qCount } with hs1
      have hE : enqueueUpdate s u = appendUpdateToQueue s1 s.qCount u := by
        unfold enqueueUpdate resolveQueues
        rw [if_pos halt, hfq]
        rfl
      have hq : s1.qRec s.qCount = createUpdateQueueRec s.fiberMemoizedState :=
        if_pos rfl
      have hwf := appendUpdateToQueue_wf s1 s.qCount u []
        ⟨by rw [hq]; exact isChain.nil, by rw [hq]; rfl⟩ (List.not_mem_nil u) hfree
      rw [hE]
      refine ⟨⟨s.qCount, [u], ?_, hwf.1, List.mem_singleton.2 rfl⟩,
        fun habs => Bool.noConfusion habs⟩
      rw [appendUpdateToQueue_fiberQ]
    | some q1 =>
      have hE : enqueueUpdate s u = appendUpdateToQueue s q1 u := by
        unfold enqueueUpdate resolveQueues
        rw [if_pos halt, hfq]
        rfl
      obtain ⟨-, l1, hwf1, hu1⟩ := hWF1 q1 hfq
      rw [hE]
      refine ⟨⟨q1, l1 ++ [u], ?_, ?_, by simp⟩,
        fun habs => Bool.noConfusion habs⟩
      · rw [appendUpdateToQueue_fiberQ, hfq]
      · exact (appendUpdateToQueue_wf s q1 u l1 hwf1 hu1 hfree).1
  | true =>
    cases hfq : s.fiberQ with
    | none =>
      cases haq : s.altQ with
      | none =>
        -- Neither fiber has an update queue: create both, append to both.
        have hE : enqueueUpdate s u = appendPhase
            { s with
                qRec := fun i =>
                  if i = s.qCount then createUpdateQueueRec s.fiberMemoizedState
                  else if i = s.qCount + 1 then
                    createUpdateQueueRec s.altMemoizedState
                  else s.qRec i
                qCount := s.qCount + 2
                fiberQ := some s.qCount
                altQ := some (s.qCount + 1) } s.qCount (some (s.qCount + 1)) u := by
          unfold enqueueUpdate resolveQueues
          rw [if_neg (by simp [halt]), hfq, haq]
        set s1 : EnqState V :=
          { s with
              qRec := fun i =>
                if i = s.qCount then createUpdateQueueRec s.fiberMemoizedState
                else if i = s.qCount + 1 then
                  createUpdateQueueRec s.altMemoizedState
                else s.qRec i
              qCount := s.qCount + 2
              fiberQ := some s.qCount
              altQ := some (s.qCount + 1) } with hs1
        have hq1rec : s1.qRec s.qCount =
            createUpdateQueueRec s.fiberMemoizedState := if_pos rfl
        have hq2rec : s1.qRec (s.qCount + 1) =
            createUpdateQueueRec s.altMemoizedState := by
          show (if s.qCount + 1 = s.qCount then _ else
            if s.qCount + 1 = s.qCount + 1 then _ else _) = _
          rw [if_neg (by omega), if_pos rfl]
        have main := appendPhase_two_queues s1 u s.qCount (s.qCount + 1)
          (by omega) [] [] ⟨by rw [hq1rec]; exact isChain.nil, by rw [hq1rec]; rfl⟩
          (List.not_mem_nil u) ⟨by rw [hq2rec]; exact isChain.nil, by rw [hq2rec]; rfl⟩
          (List.not_mem_nil u) hfree
          (fun hno _ => absurd (by rw [hq1rec]; rfl) hno)
        rw [hE]
        refine ⟨⟨s.qCount, [u], ?_, main.1, List.mem_singleton.2 rfl⟩,
          fun _ => ⟨s.qCount + 1, [u], ?_, main.2, List.mem_singleton.2 rfl⟩⟩
        · rw [appendPhase_fiberQ]
        · rw [appendPhase_altQ]
      | some q2 =>
        -- Only the alternate has a queue: clone it for the fiber.
        obtain ⟨hlt2, l2, hwf2, hu2⟩ := hWF2 q2 haq
        have hE : enqueueUpdate s u = appendPhase
            { s with
                qRec := fun i =>
                  if i = s.qCount then cloneUpdateQueueRec (s.qRec q2)
                  else s.qRec i
                qCount := s.qCount + 1
                fiberQ := some s.qCount } s.qCount (some q2) u := by
          unfold enqueueUpdate resolveQueues
          rw [if_neg (by simp [halt]), hfq, haq]
        set s1 : EnqState V :=
          { s with
              qRec := fun i =>
                if i = s.qCount then cloneUpdateQueueRec (s.qRec q2)
                else s.qRec i
              qCount := s.qCount + 1
              fiberQ := some s.qCount } with hs1
        have hq1rec : s1.qRec s.qCount = cloneUpdateQueueRec (s.qRec q2) :=
          if_pos rfl
        have hq2rec : s1.qRec q2 = s.qRec q2 := if_neg (by omega)
        have main := appendPhase_two_queues s1 u s.qCount q2 (by omega) l2 l2
          ⟨by rw [hq1rec]; exact hwf2.1, by rw [hq1rec]; exact hwf2.2⟩ hu2
          ⟨by rw [hq2rec]; exact hwf2.1, by rw [hq2rec]; exact hwf2.2⟩ hu2
          hfree (fun _ _ => by rw [hq1rec, hq2rec]; rfl)
        rw [hE]
        refine ⟨⟨s.qCount, l2 ++ [u], ?_, main.1, by simp⟩,
          fun _ => ⟨q2, l2 ++ [u], ?_, main.2, by simp⟩⟩
        · rw [appendPhase_fiberQ]
        · rw [appendPhase_altQ]
          show s.altQ = some q2
          exact haq
    | some q1 =>
      obtain ⟨hlt1, l1, hwf1, hu1⟩ := hWF1 q1 hfq
      cases haq : s.altQ with
      | none =>
        -- Only the fiber has a queue: clone it for the alternate.
        have hE : enqueueUpdate s u = appendPhase
            { s with
                qRec := fun i =>
                  if i = s.qCount then cloneUpdateQueueRec (s.qRec q1)
                  else s.qRec i
                qCount := s.qCount + 1
                altQ := some s.qCount } q1 (some s.qCount) u := by
          unfold enqueueUpdate resolveQueues
          rw [if_neg (by simp [halt]), hfq, haq]
        set s1 : EnqState V :=
          { s with
              qRec := fun i =>
                if i = s.qCount then cloneUpdateQueueRec (s.qRec q1)
                else s.qRec i
              qCount := s.qCount + 1
              altQ := some s.qCount } with hs1
        have hq2rec : s1.qRec s.qCount = cloneUpdateQueueRec (s.qRec q1) :=
          if_pos rfl
        have hq1rec : s1.qRec q1 = s.qRec q1 := if_neg (by omega)
        have main := appendPhase_two_queues s1 u q1 s.qCount (by omega) l1 l1
          ⟨by rw [hq1rec]; exact hwf1.1, by rw [hq1rec]; exact hwf1.2⟩ hu1
          ⟨by rw [hq2rec]; exact hwf1.1, by rw [hq2rec]; exact hwf1.2⟩ hu1
          hfree (fun _ _ => by rw [hq1rec, hq2rec]; rfl)
        rw [hE]
        refine ⟨⟨q1, l1 ++ [u], ?_, main.1, by simp⟩,
          fun _ => ⟨s.qCount, l1 ++ [u], ?_, main.2, by simp⟩⟩
        · rw [appendPhase_fiberQ]
          show s.fiberQ = some q1
          exact hfq
        · rw [appendPhase_altQ]
      | some q2 =>
        -- Both owners have an update queue.
        obtain ⟨hlt2, l2, hwf2, hu2⟩ := hWF2 q2 haq
        have hE : enqueueUpdate s u = appendPhase s q1 (some q2) u := by
          unfold enqueueUpdate resolveQueues
          rw [if_neg (by simp [halt]), hfq, haq]
        rw [hE]
        by_cases h12 : q1 = q2
        · -- queue1 === queue2: single queue, single append.
          subst h12
          have hE2 : appendPhase s q1 (some q1) u = appendUpdateToQueue s q1 u := by
            simp only [appendPhase, if_true]
          rw [hE2]
          have hch := (appendUpdateToQueue_wf s q1 u l1 hwf1 hu1 hfree).1
          refine ⟨⟨q1, l1 ++ [u], ?_, hch, by simp⟩,
            fun _ => ⟨q1, l1 ++ [u], ?_, hch, by simp⟩⟩
          · rw [appendUpdateToQueue_fiberQ, hfq]
          · rw [appendUpdateToQueue_altQ, haq]
        · have main := appendPhase_two_queues s u q1 q2 h12 l1 l2 hwf1 hu1
            hwf2 hu2 hfree (hshare q1 q2 hfq haq)
          refine ⟨⟨q1, l1 ++ [u], ?_, main.1, by simp⟩,
            fun _ => ⟨q2, l2 ++ [u], ?_, main.2, by simp⟩⟩
          · rw [appendPhase_fiberQ, hfq]
          · rw [appendPhase_altQ, haq]

/-- Concrete diverged dual-queue state for the C4 witness: persistent update
list `0 → 1 → 2`; the current queue (id 0) still points at update 0 while the
work-in-progress queue (id 1) has processed ahead to update 2; both share the
last node 2. -/
def wEnqState : EnqState Nat :=
  { uNext := fun n => if n = 0 then some 1 else if n = 1 then some 2 else none
    qRec := fun i =>
      if i = 0 then ⟨10, some 0, some 2, none, none⟩
      else if i = 1 then ⟨11, some 2, some 2, none, none⟩
      else ⟨0, none, none, none, none⟩
    qCount := 2
    fiberQ := some 0
    altQ := some 1
    hasAlternate := true
    fiberMemoizedState := 10
    altMemoizedState := 11 }

theorem c4_enqueueUpdate_reachable_witness :
    (∃ q1 l, (enqueueUpdate wEnqState 3).fiberQ = some q1 ∧
        isChain (enqueueUpdate wEnqState 3).uNext
          ((enqueueUpdate wEnqState 3).qRec q1).firstUpdate l ∧ 3 ∈ l) ∧
      (wEnqState.hasAlternate = true →
        ∃ q2 l, (enqueueUpdate wEnqState 3).altQ = some q2 ∧
          isChain (enqueueUpdate wEnqState 3).uNext
            ((enqueueUpdate wEnqState 3).qRec q2).firstUpdate l ∧ 3 ∈ l) :=
  c4_enqueueUpdate_reachable wEnqState 3 rfl
    (fun qid h => by
      injection h with h2
      subst h2
      exact ⟨by decide, [0, 1, 2],
        ⟨isChain.cons (isChain.cons (isChain.cons isChain.nil)), rfl⟩, by decide⟩)
    (fun qid h => by
      injection h with h2
      subst h2
      exact ⟨by decide, [2], ⟨isChain.cons isChain.nil, rfl⟩, by decide⟩)
    (fun q1 q2 h1 h2 _ _ => by
      injection h1 with h1'
      injection h2 with h2'
      subst h1'
      subst h2'
      rfl)

/-! ## Child-priority bookkeeping on the fiber tree (C5)

`markUpdateTimeFromFiberToRoot` / `resetChildExpirationTime` from the
work-loop module, over the source's child/sibling tree shape.  The parent
walk of the source is rendered top-down: a path of child/sibling steps from
the root to the target fiber; the nodes the source's `node = node.return`
walk raises are exactly the nodes the path leaves by a `child` step. -/

/-- A fiber as these two functions see it: its own pending `expirationTime`,
its `childExpirationTime`, and the `child`/`sibling` links; `nil` stands for a
null pointer. -/
inductive Fib where
  | nil
  | mk (expirationTime childExpirationTime : Int) (child sibling : Fib)

/-- One step of a path from the root to a fiber. -/
inductive Dir where
  | child
  | sibling

/-- The maximum pending `expirationTime` over every node of a subtree
(including the head's sibling chain); `NoWork` for a null subtree. -/
def maxExpOf : Fib → Int
  | .nil => NoWork
  | .mk e _ c s => max e (max (maxExpOf c) (maxExpOf s))

/-- The claimed invariant, decidably: every node's `childExpirationTime` is at
least the pending `expirationTime` of every node below it. -/
def childExpInv : Fib → Bool
  | .nil => true
  | .mk _ ce c s => decide (maxExpOf c ≤ ce) && childExpInv c && childExpInv s

/-- `markUpdateTimeFromFiberToRoot(fiber, expirationTime)`, top-down along the
path to `fiber`: raise the target fiber's own `expirationTime`
(`if (fiber.expirationTime < expirationTime) fiber.expirationTime = ...`), and
raise `childExpirationTime` on every ancestor the path leaves by a `child`
step (`if (node.childExpirationTime < expirationTime)
node.childExpirationTime = ...`); a `sibling` step raises nothing, since
siblings share the parent and the source's `node = node.return` walk visits
parents only. -/
def markPath (t : Int) : Fib → List Dir → Fib
  | .nil, _ => .nil
  | .mk e ce c s, [] => .mk (max e t) ce c s
  | .mk e ce c s, .child :: p => .mk e (max ce t) (markPath t c p) s
  | .mk e ce c s, .sibling :: p => .mk e ce c (markPath t s p)

/-- The `while (child !== null)` loop of `resetChildExpirationTime`: the
maximum of `child.expirationTime` / `child.childExpirationTime` over the
direct children. -/
def chainMax : Fib → Int
  | .nil => NoWork
  | .mk e ce _ s => max (max e ce) (chainMax s)

/-- `resetChildExpirationTime(completedWork)` (non-profiler branch; the
profiler branch computes the same times): recompute `childExpirationTime`
from the direct children, except for a hidden subtree
(`renderExpirationTime !== Never && childExpirationTime === Never`). -/
def resetChildExpirationTime (renderExpirationTime : Int) : Fib → Fib
  | .nil => .nil
  | .mk e ce c s =>
    if renderExpirationTime ≠ Never ∧ ce = Never then .mk e ce c s
    else .mk e (chainMax c) c s

/-- `resetChildExpirationTime` applied at the fiber a path points to (the
completion-phase bottom-up recompute visits each completed fiber this way). -/
def resetAt (renderExpirationTime : Int) : Fib → List Dir → Fib
  | f, [] => resetChildExpirationTime renderExpirationTime f
  | .nil, _ :: _ => .nil
  | .mk e ce c s, .child :: p => .mk e ce (resetAt renderExpirationTime c p) s
  | .mk e ce c s, .sibling :: p => .mk e ce c (resetAt renderExpirationTime s p)

/-- Marking can only raise the subtree's maximum pending time up to `t`. -/
theorem maxExpOf_markPath (t : Int) (p : List Dir) :
    ∀ x : Fib, maxExpOf (markPath t x p) ≤ max (maxExpOf x) t := by
  induction p with
  | nil =>
    intro x
    cases x with
    | nil => exact le_max_left _ _
    | mk e ce c s =>
      show max (max e t) (max (maxExpOf c) (maxExpOf s)) ≤
        max (max e (max (maxExpOf c) (maxExpOf s))) t
      refine max_le (max_le ?_ ?_) ?_
      · exact le_max_of_le_left (le_max_left _ _)
      · exact le_max_right _ _
      · exact le_max_of_le_left (le_max_right _ _)
  | cons d p ih =>
    intro x
    cases x with
    | nil => exact le_max_left _ _
    | mk e ce c s =>
      cases d with
      | child =>
        show max e (max (maxExpOf (markPath t c p)) (maxExpOf s)) ≤
          max (max e (max (maxExpOf c) (maxExpOf s))) t
        refine max_le ?_ (max_le ?_ ?_)
        · exact le_max_of_le_left (le_max_left _ _)
        · exact (ih c).trans
            (max_le_max (le_max_of_le_right (le_max_left _ _)) le_rfl)
        · exact le_max_of_le_left (le_max_of_le_right (le_max_right _ _))
      | sibling =>
        show max e (max (maxExpOf c) (maxExpOf (markPath t s p))) ≤
          max (max e (max (maxExpOf c) (maxExpOf s))) t
        refine max_le ?_ (max_le ?_ ?_)
        · exact le_max_of_le_left (le_max_left _ _)
        · exact le_max_of_le_left (le_max_of_le_right (le_max_left _ _))
        · exact (ih s).trans
            (max_le_max (le_max_of_le_right (le_max_right _ _)) le_rfl)

theorem childExpInv_markPath (t : Int) (p : List Dir) :
    ∀ x : Fib, childExpInv x = true → childExpInv (markPath t x p) = true := by
  induction p with
  | nil =>
    intro x hx
    cases x with
    | nil => exact hx
    | mk e ce c s => exact hx
  | cons d p ih =>
    intro x hx
    cases x with
    | nil => exact hx
    | mk e ce c s =>
      simp only [childExpInv, Bool.and_eq_true, decide_eq_true_eq] at hx
      obtain ⟨⟨hle, hc⟩, hs⟩ := hx
      cases d with
      | child =>
        simp only [markPath, childExpInv, Bool.and_eq_true, decide_eq_true_eq]
        exact ⟨⟨(maxExpOf_markPath t p c).trans (max_le_max hle le_rfl),
          ih c hc⟩, hs⟩
      | sibling =>
        simp only [markPath, childExpInv, Bool.and_eq_true, decide_eq_true_eq]
        exact ⟨⟨hle, hc⟩, ih s hs⟩

/-- Resetting `childExpirationTime` never changes any node's own pending
time. -/
theorem maxExpOf_resetAt (r : Int) (p : List Dir) :
    ∀ x : Fib, maxExpOf (resetAt r x p) = maxExpOf x := by
  induction p with
  | nil =>
    intro x
    cases x with
    | nil => rfl
    | mk e ce c s =>
      show maxExpOf (if r ≠ Never ∧ ce = Never then _ else _) = _
      split <;> rfl
  | cons d p ih =>
    intro x
    cases x with
    | nil => rfl
    | mk e ce c s =>
      cases d with
      | child =>
        show max e (max (maxExpOf (resetAt r c p)) (maxExpOf s)) = _
        rw [ih c]
        rfl
      | sibling =>
        show max e (max (maxExpOf c) (maxExpOf (resetAt r s p))) = _
        rw [ih s]
        rfl

/-- Under the invariant, the direct-children maximum dominates the whole
subtree's pending times. -/
theorem chainMax_ge : ∀ c : Fib, childExpInv c = true → maxExpOf c ≤ chainMax c
  | .nil, _ => le_refl _
  | .mk e ce c' s, h => by
    simp only [childExpInv, Bool.and_eq_true, decide_eq_true_eq] at h
    obtain ⟨⟨hle, hc⟩, hs⟩ := h
    show max e (max (maxExpOf c') (maxExpOf s)) ≤ max (max e ce) (chainMax s)
    refine max_le ?_ (max_le ?_ ?_)
    · exact le_max_of_le_left (le_max_left _ _)
    · exact le_max_of_le_left (hle.trans (le_max_right _ _))
    · exact (chainMax_ge s hs).trans (le_max_right _ _)

theorem childExpInv_resetAt (r : Int) (p : List Dir) :
    ∀ x : Fib, childExpInv x = true → childExpInv (resetAt r x p) = true := by
  induction p with
  | nil =>
    intro x hx
    cases x with
    | nil => exact hx
    | mk e ce c s =>
      show childExpInv (if r ≠ Never ∧ ce = Never then _ else _) = true
      split
      · exact hx
      · simp only [childExpInv, Bool.and_eq_true, decide_eq_true_eq] at hx ⊢
        obtain ⟨⟨hle, hc⟩, hs⟩ := hx
        exact ⟨⟨chainMax_ge c hc, hc⟩, hs⟩
  | cons d p ih =>
    intro x hx
    cases x with
    | nil => exact hx
    | mk e ce c s =>
      simp only [childExpInv, Bool.and_eq_true, decide_eq_true_eq] at hx
      obtain ⟨⟨hle, hc⟩, hs⟩ := hx
      cases d with
      | child =>
        simp only [resetAt, childExpInv, Bool.and_eq_true, decide_eq_true_eq]
        exact ⟨⟨by rw [maxExpOf_resetAt]; exact hle, ih c hc⟩, hs⟩
      | sibling =>
        simp only [resetAt, childExpInv, Bool.and_eq_true, decide_eq_true_eq]
        exact ⟨⟨hle, hc⟩, ih s hs⟩

/-- **C5** — Child-priority monotonicity: the invariant "every node's
`childExpirationTime` is at least the pending `expirationTime` of every
descendant" is preserved by every `markUpdateTimeFromFiberToRoot` call (the
target's raised time is matched by the `childExpirationTime` raises along its
ancestor path) and by every completion-phase `resetChildExpirationTime`
recompute at any fiber — so it holds after each such call. -/
theorem c5_childPriority_invariant (root : Fib) (t renderExpirationTime : Int)
    (markTarget resetTarget : List Dir) (hinv : childExpInv root = true) :
    childExpInv (markPath t root markTarget) = true ∧
      childExpInv (resetAt renderExpirationTime root resetTarget) = true :=
  ⟨childExpInv_markPath t markTarget root hinv,
    childExpInv_resetAt renderExpirationTime resetTarget root hinv⟩

/-- Concrete tree for the C5 witness: a root with `childExpirationTime = 5`
over two siblings with pending times 5 and 3. -/
def wTree : Fib := .mk 0 5 (.mk 5 0 .nil (.mk 3 0 .nil .nil)) .nil

theorem c5_childPriority_invariant_witness :
    childExpInv (markPath 7 wTree [Dir.child]) = true ∧
      childExpInv (resetAt 0 wTree []) = true :=
  c5_childPriority_invariant wTree 7 0 [Dir.child] [] (by decide)

/-! ## The commit phases of `commitRootImpl` (C6, C7)

Each phase is a `do { try phaseFn() } catch { captureCommitPhaseError(...);
nextEffect = nextEffect.nextEffect } while (nextEffect !== null)` loop around
an inner `while (nextEffect !== null)` walk.  Per-fiber work is abstracted to
an oracle `err : Nat → Bool` saying which effect-list entries throw; the trace
records what happened to each entry and where `root.current` is reassigned. -/

/-- The three effect-list passes of `commitRootImpl`. -/
inductive CommitPhase where
  | beforeMutation
  | mutation
  | layout
deriving DecidableEq

/-- One observable step of `commitRootImpl`. -/
inductive CommitEvent where
  | effect (phase : CommitPhase) (e : Nat)
  | capture (phase : CommitPhase) (e : Nat)
  | setCurrent
deriving DecidableEq

/-- The inner `while (nextEffect !== null)` walk of a phase function
(`commitBeforeMutationEffects` / `commitMutationEffects` /
`commitLayoutEffects`): emits the per-fiber work until an entry throws, in
which case the exception escapes with `nextEffect` still at the thrower. -/
def phaseInner (err : Nat → Bool) (ph : CommitPhase) :
    List Nat → List CommitEvent × Option (Nat × List Nat)
  | [] => ([], none)
  | e :: rest =>
    if err e then ([], some (e, rest))
    else
      let r := phaseInner err ph rest
      (CommitEvent.effect ph e :: r.1, r.2)

theorem phaseInner_some_length (err : Nat → Bool) (ph : CommitPhase) :
    ∀ (l : List Nat) (evs : List CommitEvent) (e : Nat) (rest : List Nat),
      phaseInner err ph l = (evs, some (e, rest)) → rest.length < l.length := by
  intro l
  induction l with
  | nil =>
    intro evs e rest h
    simp only [phaseInner, Prod.mk.injEq] at h
    cases h.2
  | cons u l' ih =>
    intro evs e rest h
    simp only [phaseInner] at h
    split at h
    · obtain ⟨-, h2⟩ := Prod.mk.injEq .. ▸ h
      injection h with h1 h2
      injection h2 with h3
      obtain ⟨-, rfl⟩ := Prod.mk.injEq .. ▸ h3
      simp
    · injection h with h1 h2
      exact Nat.lt_trans (ih _ e rest (by rw [Prod.mk.injEq]; exact ⟨rfl, h2⟩))
        (Nat.lt_succ_self _)

/-- The outer `do … while` of a commit phase in `commitRootImpl`: a caught
exception is attributed via `captureCommitPhaseError(nextEffect, error)` and
the loop resumes past the failing entry. -/
def phaseLoop (err : Nat → Bool) (ph : CommitPhase) (l : List Nat) :
    List CommitEvent :=
  match h : phaseInner err ph l with
  | (evs, none) => evs
  | (evs, some (e, rest)) =>
    evs ++ CommitEvent.capture ph e :: phaseLoop err ph rest
termination_by l.length
decreasing_by
  exact phaseInner_some_length err ph l _ e rest h

/-- `commitRootImpl` at the trace level: the three phase passes over the
effect list, with `root.current = finishedWork` between the mutation and the
layout pass — or, with no effects, just the swap. -/
def commitRootImpl (errB errM errL : Nat → Bool) (effects : List Nat) :
    List CommitEvent :=
  if effects.isEmpty then
    [CommitEvent.setCurrent]
  else
    phaseLoop errB CommitPhase.beforeMutation effects ++
      phaseLoop errM CommitPhase.mutation effects ++
      CommitEvent.setCurrent :: phaseLoop errL CommitPhase.layout effects

/-- `phaseInner` on an entirely non-throwing list emits every entry's work. -/
theorem phaseInner_no_throw (err : Nat → Bool) (ph : CommitPhase) :
    ∀ l : List Nat, (∀ e ∈ l, err e = false) →
      phaseInner err ph l = (l.map (CommitEvent.effect ph), none) := by
  intro l
  induction l with
  | nil => intro _; rfl
  | cons u l' ih =>
    intro h
    simp only [phaseInner, h u (List.mem_cons_self u l'), Bool.false_eq_true,
      if_false, if_neg, List.map_cons]
    rw [ih (fun e he => h e (List.mem_cons_of_mem u he))]

/-- `phaseInner` stops at the first throwing entry with `nextEffect` on it. -/
theorem phaseInner_first_throw (err : Nat → Bool) (ph : CommitPhase) :
    ∀ (pre : List Nat) (e : Nat) (rest : List Nat),
      (∀ x ∈ pre, err x = false) → err e = true →
      phaseInner err ph (pre ++ e :: rest) =
        (pre.map (CommitEvent.effect ph), some (e, rest)) := by
  intro pre
  induction pre with
  | nil =>
    intro e rest _ he
    simp only [List.nil_append, phaseInner, he, if_true, List.map_nil]
  | cons u pre' ih =>
    intro e rest h he
    simp only [List.cons_append, phaseInner, h u (List.mem_cons_self u pre'),
      Bool.false_eq_true, if_false, if_neg, List.map_cons, List.append_eq]
    rw [ih e rest (fun x hx => h x (List.mem_cons_of_mem u hx)) he]

/-- The two-level phase loop flattens to a single pass over the effect list:
every entry is reached exactly once, emitting its per-fiber work or — when the
oracle says its work throws — a capture. -/
theorem phaseLoop_eq_map (err : Nat → Bool) (ph : CommitPhase) (l : List Nat) :
    phaseLoop err ph l = l.map (fun e =>
      if err e then CommitEvent.capture ph e else CommitEvent.effect ph e) := by
  have H : ∀ n (l : List Nat), l.length ≤ n → phaseLoop err ph l =
      l.map (fun e =>
        if err e then CommitEvent.capture ph e else CommitEvent.effect ph e) := by
    intro n
    induction n with
    | zero =>
      intro l hl
      have hnil : l = [] := List.length_eq_zero.1 (Nat.le_zero.1 hl)
      subst hnil
      unfold phaseLoop
      rw [phaseInner_no_throw err ph [] (by simp)]
      rfl
    | succ n ihn =>
      intro l hl
      rcases first_skip_decomp (fun e => err e = true) l with
        hall | ⟨pre, e, rest, rfl, hpre, he⟩
      · have hall' : ∀ e ∈ l, err e = false :=
          fun e hme => Bool.eq_false_iff.2 (hall e hme)
        unfold phaseLoop
        rw [phaseInner_no_throw err ph l hall']
        show l.map (CommitEvent.effect ph) = _
        exact (List.map_congr_left
          (fun e hme => by rw [hall' e hme]; rfl)).symm
      · have hpre' : ∀ x ∈ pre, err x = false :=
          fun x hx => Bool.eq_false_iff.2 (hpre x hx)
        unfold phaseLoop
        rw [phaseInner_first_throw err ph pre e rest hpre' he]
        have hrest : phaseLoop err ph rest = rest.map (fun e =>
            if err e then CommitEvent.capture ph e else CommitEvent.effect ph e) := by
          refine ihn rest ?_
          have := hl
          simp only [List.length_append, List.length_cons] at this
          omega
        show pre.map (CommitEvent.effect ph) ++
          CommitEvent.capture ph e :: phaseLoop err ph rest = _
        rw [hrest, List.map_append, List.map_cons, he, if_pos rfl]
        congr 1
        exact List.map_congr_left (fun x hx => by rw [hpre' x hx]; rfl)
  exact H l.length l le_rfl

/-- The phase an event belongs to (`none` for the `root.current` swap). -/
def CommitEvent.phaseOf : CommitEvent → Option CommitPhase
  | .effect ph _ => some ph
  | .capture ph _ => some ph
  | .setCurrent => none

theorem phaseLoop_phaseOf (err : Nat → Bool) (ph : CommitPhase) (l : List Nat) :
    ∀ ev ∈ phaseLoop err ph l, CommitEvent.phaseOf ev = some ph := by
  rw [phaseLoop_eq_map]
  intro ev hev
  rcases List.mem_map.1 hev with ⟨e, -, rfl⟩
  split <;> rfl

theorem phaseLoop_count_setCurrent (err : Nat → Bool) (ph : CommitPhase)
    (l : List Nat) :
    (phaseLoop err ph l).count CommitEvent.setCurrent = 0 := by
  rw [List.count_eq_zero]
  intro hmem
  have := phaseLoop_phaseOf err ph l CommitEvent.setCurrent hmem
  cases this

/-- **C6** — Single-swap commit visibility: the trace of `commitRootImpl`
splits as `pre ++ setCurrent :: post` where `pre` holds only before-mutation
and mutation-phase events — including, for every effect-list entry, that
entry's mutation-phase outcome, so the mutation loop has reached the end of
the effect list before the swap — and `post` holds only layout-phase events;
and `root.current` is reassigned exactly once in the whole commit, whatever
the effect list and whichever per-fiber steps throw. -/
theorem c6_commitRootImpl_single_swap (errB errM errL : Nat → Bool)
    (effects : List Nat) :
    ∃ pre post,
      commitRootImpl errB errM errL effects =
          pre ++ CommitEvent.setCurrent :: post ∧
        (∀ ev ∈ pre, ev.phaseOf = some CommitPhase.beforeMutation ∨
          ev.phaseOf = some CommitPhase.mutation) ∧
        (∀ ev ∈ post, ev.phaseOf = some CommitPhase.layout) ∧
        (∀ e ∈ effects, CommitEvent.effect CommitPhase.mutation e ∈ pre ∨
          CommitEvent.capture CommitPhase.mutation e ∈ pre) ∧
        (commitRootImpl errB errM errL effects).count CommitEvent.setCurrent
          = 1 := by
  by_cases hemp : effects.isEmpty
  · have heff : effects = [] := List.isEmpty_iff.1 hemp
    refine ⟨[], [], ?_, by simp, by simp, ?_, ?_⟩
    · simp [commitRootImpl, hemp]
    · intro e he
      rw [heff] at he
      cases he
    · simp [commitRootImpl, hemp]
  · refine ⟨phaseLoop errB CommitPhase.beforeMutation effects ++
        phaseLoop errM CommitPhase.mutation effects,
      phaseLoop errL CommitPhase.layout effects, ?_, ?_, ?_, ?_, ?_⟩
    · simp [commitRootImpl, hemp]
    · intro ev hev
      rcases List.mem_append.1 hev with h | h
      · exact Or.inl (phaseLoop_phaseOf errB CommitPhase.beforeMutation
          effects ev h)
      · exact Or.inr (phaseLoop_phaseOf errM CommitPhase.mutation effects ev h)
    · exact phaseLoop_phaseOf errL CommitPhase.layout effects
    · intro e he
      have hmem : (if errM e then CommitEvent.capture CommitPhase.mutation e
          else CommitEvent.effect CommitPhase.mutation e) ∈
            phaseLoop errM CommitPhase.mutation effects := by
        rw [phaseLoop_eq_map]
        exact List.mem_map_of_mem _ he
      by_cases hm : errM e
      · rw [if_pos hm] at hmem
        exact Or.inr (List.mem_append_right _ hmem)
      · rw [if_neg hm] at hmem
        exact Or.inl (List.mem_append_right _ hmem)
    · simp only [commitRootImpl, hemp, if_false, List.count_append,
        List.count_cons_self, phaseLoop_count_setCurrent, Bool.false_eq_true]

/-! ## `captureCommitPhaseError` (C7) -/

/-- Modelled from the spec: the `ClassComponent` work tag
(`shared/ReactWorkTags` is external to these sources; only distinctness
matters). -/
def ClassComponent : Nat := 1

/-- Modelled from the spec: the `HostRoot` work tag. -/
def HostRoot : Nat := 3

/-- What `captureCommitPhaseError` inspects about a fiber on the `return`
chain: its work tag, the two error-boundary methods, and whether the legacy
boundary already failed. -/
structure FiberDesc where
  tag : Nat
  hasGetDerivedStateFromError : Bool
  hasComponentDidCatch : Bool
  alreadyFailedLegacyBoundary : Bool

/-- The synthetic error update enqueued on the chosen fiber. -/
structure ErrorUpdate where
  expirationTime : Int
  tag : Nat
deriving DecidableEq

/-- Modelled from the spec: `createRootErrorUpdate` / `createClassErrorUpdate`
(external to these sources) build a capture-tagged update at the expiration
time the caller passes — both call sites here pass `Sync`. -/
def createErrorUpdate (expirationTime : Int) : ErrorUpdate :=
  ⟨expirationTime, CaptureUpdate⟩

/-- Where the error got attributed. -/
inductive CaptureTarget where
  | onSource
  | onAncestor (i : Nat)
deriving DecidableEq

/-- The `let fiber = sourceFiber.return; while (fiber !== null)` walk of
`captureCommitPhaseError`: stop at a host root, or at a class component with
`getDerivedStateFromError` or a not-already-failed `componentDidCatch`; `i`
counts the distance walked. -/
def captureWalk : List FiberDesc → Nat → Option (Nat × ErrorUpdate)
  | [], _ => none
  | f :: rest, i =>
    if f.tag = HostRoot then some (i, createErrorUpdate Sync)
    else if f.tag = ClassComponent ∧ (f.hasGetDerivedStateFromError = true ∨
        (f.hasComponentDidCatch = true ∧
          f.alreadyFailedLegacyBoundary = false)) then
      some (i, createErrorUpdate Sync)
    else captureWalk rest (i + 1)

/-- `captureCommitPhaseError(sourceFiber, error)` (work-loop module), as the
attribution it performs: a root source captures on itself
(`captureCommitPhaseErrorOnRoot`), otherwise the first capable fiber on the
return chain receives the `Sync` error update; with no capable fiber, nothing
is enqueued. -/
def captureCommitPhaseError (sourceFiber : FiberDesc)
    (returnChain : List FiberDesc) : Option (CaptureTarget × ErrorUpdate) :=
  if sourceFiber.tag = HostRoot then
    some (CaptureTarget.onSource, createErrorUpdate Sync)
  else
    (captureWalk returnChain 0).map
      (fun r => (CaptureTarget.onAncestor r.1, r.2))

/-- The claim's wording: a fiber able to capture a commit-phase error. -/
def boundaryCapable (f : FiberDesc) : Bool :=
  f.tag == HostRoot ||
    (f.tag == ClassComponent &&
      (f.hasGetDerivedStateFromError ||
        (f.hasComponentDidCatch && !f.alreadyFailedLegacyBoundary)))

/-- The claim's wording: the index of the nearest capable ancestor. -/
def firstCapableIdx : List FiberDesc → Option Nat
  | [] => none
  | f :: rest =>
    if boundaryCapable f then some 0 else (firstCapableIdx rest).map (· + 1)

/-- The claim's wording for the attribution as a whole: the nearest capable
ancestor — or the source itself when it is the root — receives a captured
update at synchronous priority. -/
def nearestBoundaryCapture (sourceFiber : FiberDesc)
    (returnChain : List FiberDesc) : Option (CaptureTarget × ErrorUpdate) :=
  if sourceFiber.tag = HostRoot then
    some (CaptureTarget.onSource, ⟨Sync, CaptureUpdate⟩)
  else
    (firstCapableIdx returnChain).map
      (fun i => (CaptureTarget.onAncestor i, ⟨Sync, CaptureUpdate⟩))

theorem captureWalk_eq_firstCapableIdx :
    ∀ (chain : List FiberDesc) (i : Nat),
      captureWalk chain i = (firstCapableIdx chain).map
        (fun j => (i + j, createErrorUpdate Sync)) := by
  intro chain
  induction chain with
  | nil => intro i; rfl
  | cons f rest ih =>
    intro i
    have hcap : boundaryCapable f = true ↔ f.tag = HostRoot ∨
        (f.tag = ClassComponent ∧ (f.hasGetDerivedStateFromError = true ∨
          (f.hasComponentDidCatch = true ∧
            f.alreadyFailedLegacyBoundary = false))) := by
      simp [boundaryCapable, Bool.or_eq_true, Bool.and_eq_true, beq_iff_eq,
        Bool.not_eq_true']
    by_cases h1 : f.tag = HostRoot
    · have hb : boundaryCapable f = true := hcap.2 (Or.inl h1)
      simp only [captureWalk, if_pos h1, firstCapableIdx, hb, if_true,
        Option.map_some', Nat.add_zero]
    · by_cases h2 : f.tag = ClassComponent ∧
          (f.hasGetDerivedStateFromError = true ∨
            (f.hasComponentDidCatch = true ∧
              f.alreadyFailedLegacyBoundary = false))
      · have hb : boundaryCapable f = true := hcap.2 (Or.inr h2)
        simp only [captureWalk, if_neg h1, if_pos h2, firstCapableIdx, hb,
          if_true, Option.map_some', Nat.add_zero]
      · have hb : boundaryCapable f = false :=
          Bool.eq_false_iff.2 (fun hx => (hcap.1 hx).elim h1 h2)
        simp only [captureWalk, if_neg h1, if_neg h2, firstCapableIdx, hb,
          Bool.false_eq_true, if_false, ih (i + 1), Option.map_map]
        congr 1
        funext j
        simp only [Function.comp_apply, Prod.mk.injEq]
        exact ⟨by omega, trivial⟩

/-- **C7** — Commit-phase error containment: (1) every commit phase reaches
the end of the effect list before returning — the phase-loop trace is exactly
one outcome per effect-list entry, in order: a capture for an entry whose work
throws (after which the loop continues past the failing node) and the
per-fiber work for the rest; (2) `captureCommitPhaseError` attributes a
thrown error to the nearest error-boundary-capable ancestor (or the root),
enqueuing a capture-tagged update at synchronous (`Sync`) priority. -/
theorem c7_commit_phase_error_containment (err : Nat → Bool) (ph : CommitPhase)
    (effects : List Nat) (sourceFiber : FiberDesc)
    (returnChain : List FiberDesc) :
    phaseLoop err ph effects = effects.map (fun e =>
        if err e then CommitEvent.capture ph e else CommitEvent.effect ph e) ∧
      captureCommitPhaseError sourceFiber returnChain =
        nearestBoundaryCapture sourceFiber returnChain := by
  refine ⟨phaseLoop_eq_map err ph effects, ?_⟩
  unfold captureCommitPhaseError nearestBoundaryCapture
  by_cases hsrc : sourceFiber.tag = HostRoot
  · rw [if_pos hsrc, if_pos hsrc]
    rfl
  · rw [if_neg hsrc, if_neg hsrc,
      captureWalk_eq_firstCapableIdx returnChain 0, Option.map_map]
    congr 1
    funext j
    simp only [Function.comp_apply, Nat.zero_add]
    rfl

/-! ## `createWorkInProgress` / `resetWorkInProgress` (C8)

The fiber module's double-buffer pooling.  Pointers (`child`, `sibling`,
effect-list links, `stateNode`, …) are ids; props / state / queue contents are
abstract type parameters, wrapped in `Option` so `null` is representable. -/

/-- A fiber's `dependencies` record, cloned field by field by
`createWorkInProgress` / `resetWorkInProgress`. -/
structure DepRec where
  expirationTime : Int
  firstContext : Option Nat
  responders : Option Nat
deriving DecidableEq

/-- The fiber fields `createWorkInProgress` reads or writes (profiler and
DEV-only fields omitted; `enableProfilerTimer` timing fields carry no
spec-relevant state). -/
structure FiberRec (Props State Queue : Type) where
  tag : Nat
  key : Option Nat
  mode : Nat
  elementType : Option Nat
  type : Option Nat
  stateNode : Option Nat
  pendingProps : Option Props
  effectTag : Nat
  nextEffect : Option Nat
  firstEffect : Option Nat
  lastEffect : Option Nat
  expirationTime : Int
  childExpirationTime : Int
  child : Option Nat
  sibling : Option Nat
  index : Nat
  ref : Option Nat
  memoizedProps : Option Props
  memoizedState : Option State
  updateQueue : Option Queue
  dependencies : Option DepRec

variable {Props State Queue : Type}

/-- The `FiberNode` constructor (`createFiber`). -/
def createFiber (tag : Nat) (pendingProps : Option Props) (key : Option Nat)
    (mode : Nat) : FiberRec Props State Queue :=
  { tag := tag
    key := key
    mode := mode
    elementType := none
    type := none
    stateNode := none
    pendingProps := pendingProps
    effectTag := NoEffect
    nextEffect := none
    firstEffect := none
    lastEffect := none
    expirationTime := NoWork
    childExpirationTime := NoWork
    child := none
    sibling := none
    index := 0
    ref := none
    memoizedProps := none
    memoizedState := none
    updateQueue := none
    dependencies := none }

/-- The dependencies clone both functions perform (`{ expirationTime:
currentDependencies.expirationTime, firstContext: …, responders: … }`). -/
def cloneDependencies : Option DepRec → Option DepRec
  | none => none
  | some d => some ⟨d.expirationTime, d.firstContext, d.responders⟩

/-- `createWorkInProgress(current, pendingProps, expirationTime)`; the
existing alternate (if any) is passed explicitly since the `alternate` link
lives outside the record.  The `expirationTime` argument is unused by the
source body. -/
def createWorkInProgress (current : FiberRec Props State Queue)
    (alternate : Option (FiberRec Props State Queue))
    (pendingProps : Option Props) (expirationTime : Int) :
    FiberRec Props State Queue :=
  let workInProgress : FiberRec Props State Queue :=
    match alternate with
    | none =>
      let w : FiberRec Props State Queue :=
        createFiber current.tag pendingProps current.key current.mode
      { w with
          elementType := current.elementType
          type := current.type
          stateNode := current.stateNode }
    | some wip =>
      { wip with
          pendingProps := pendingProps
          -- We already have an alternate. Reset the effect tag.
          effectTag := NoEffect
          -- The effect list is no longer valid.
          nextEffect := none
          firstEffect := none
          lastEffect := none }
  { workInProgress with
      childExpirationTime := current.childExpirationTime
      expirationTime := current.expirationTime
      child := current.child
      memoizedProps := current.memoizedProps
      memoizedState := current.memoizedState
      updateQueue := current.updateQueue
      dependencies := cloneDependencies current.dependencies
      sibling := current.sibling
      index := current.index
      ref := current.ref }

/-- `resetWorkInProgress(workInProgress, renderExpirationTime)` — the
second-pass reset, which *keeps* the `Placement` bit
(`workInProgress.effectTag &= Placement`), unlike `createWorkInProgress`. -/
def resetWorkInProgress (workInProgress : FiberRec Props State Queue)
    (current : Option (FiberRec Props State Queue))
    (renderExpirationTime : Int) : FiberRec Props State Queue :=
  let w : FiberRec Props State Queue :=
    { workInProgress with
        effectTag := workInProgress.effectTag &&& Placement
        nextEffect := none
        firstEffect := none
        lastEffect := none }
  match current with
  | none =>
    { w with
        childExpirationTime := NoWork
        expirationTime := renderExpirationTime
        child := none
        memoizedProps := none
        memoizedState := none
        updateQueue := none
        dependencies := none }
  | some current =>
    { w with
        childExpirationTime := current.childExpirationTime
        expirationTime := current.expirationTime
        child := current.child
        memoizedProps := current.memoizedProps
        memoizedState := current.memoizedState
        updateQueue := current.updateQueue
        dependencies := cloneDependencies current.dependencies }

/-- Concrete current fiber for the C8 counterexample. -/
def c8Current : FiberRec Unit Unit Unit :=
  { (createFiber 1 none none 0 : FiberRec Unit Unit Unit) with
      child := some 7
      memoizedProps := some ()
      memoizedState := some ()
      updateQueue := some () }

/-- Concrete existing alternate for the C8 counterexample: its previous
effect tag has both the `Placement` bit and the `Update` bit set. -/
def c8Wip : FiberRec Unit Unit Unit :=
  { (createFiber 1 none none 0 : FiberRec Unit Unit Unit) with
      effectTag := Placement ||| UpdateTag
      nextEffect := some 5
      firstEffect := some 5
      lastEffect := some 5 }

/-- C8 counterexample — the claim says the reused alternate's effect tag is
reset to "its previous value minus the placement bit"
(`effectTag & ~Placement`, here `6 & ~2 = 4`); the source instead clears it
entirely (`workInProgress.effectTag = NoEffect`, i.e. `0`). -/
theorem c8_effectTag_counterexample :
    ¬ ((createWorkInProgress c8Current (some c8Wip) none 0).effectTag =
        c8Wip.effectTag &&& compl32 Placement) := by
  decide

/-- **C8** (amended) — Alternate reuse reset: called on a node whose alternate
already exists, `createWorkInProgress` returns that alternate with its
transient fields reset — the effect tag cleared to `NoEffect` (not merely
stripped of the placement bit) and the effect-list pointers nulled — its
`pendingProps` replaced, its persistent fields (`child`, memoized props and
state, update queue, times, `sibling`/`index`/`ref`) copied from the current
node, the dependencies cloned, and its identity fields kept. -/
theorem c8_createWorkInProgress_reuse (current wip : FiberRec Props State Queue)
    (pendingProps : Option Props) (expirationTime : Int) :
    (createWorkInProgress current (some wip) pendingProps
          expirationTime).effectTag = NoEffect ∧
      (createWorkInProgress current (some wip) pendingProps
          expirationTime).nextEffect = none ∧
      (createWorkInProgress current (some wip) pendingProps
          expirationTime).firstEffect = none ∧
      (createWorkInProgress current (some wip) pendingProps
          expirationTime).lastEffect = none ∧
      (createWorkInProgress current (some wip) pendingProps
          expirationTime).pendingProps = pendingProps ∧
      (createWorkInProgress current (some wip) pendingProps
          expirationTime).child = current.child ∧
      (createWorkInProgress current (some wip) pendingProps
          expirationTime).memoizedProps = current.memoizedProps ∧
      (createWorkInProgress current (some wip) pendingProps
          expirationTime).memoizedState = current.memoizedState ∧
      (createWorkInProgress current (some wip) pendingProps
          expirationTime).updateQueue = current.updateQueue ∧
      (createWorkInProgress current (some wip) pendingProps
          expirationTime).childExpirationTime = current.childExpirationTime ∧
      (createWorkInProgress current (some wip) pendingProps
          expirationTime).expirationTime = current.expirationTime ∧
      (createWorkInProgress current (some wip) pendingProps
          expirationTime).dependencies = cloneDependencies current.dependencies ∧
      (createWorkInProgress current (some wip) pendingProps
          expirationTime).sibling = current.sibling ∧
      (createWorkInProgress current (some wip) pendingProps
          expirationTime).index = current.index ∧
      (createWorkInProgress current (some wip) pendingProps
          expirationTime).ref = current.ref ∧
      (createWorkInProgress current (some wip) pendingProps
          expirationTime).tag = wip.tag ∧
      (createWorkInProgress current (some wip) pendingProps
          expirationTime).key = wip.key ∧
      (createWorkInProgress current (some wip) pendingProps
          expirationTime).mode = wip.mode ∧
      (createWorkInProgress current (some wip) pendingProps
          expirationTime).stateNode = wip.stateNode :=
  ⟨rfl, rfl, rfl, rfl, rfl, rfl, rfl, rfl, rfl, rfl, rfl, rfl, rfl, rfl, rfl,
    rfl, rfl, rfl, rfl⟩

/-! ## `flushSyncCallbackQueueImpl` (C9)

`SchedulerWithReactIntegration`'s synchronous queue flush.  A callback entry
is a `Nat` id; whether an entry's run (its whole
`do { callback = callback(isSync) } while (callback !== null)` continuation
chain) throws is an oracle. -/

/-- What one call leaves behind: the module-level `syncQueue` afterwards,
whether a follow-up flush was scheduled at `Scheduler_ImmediatePriority`, and
the rethrown error (identified by the throwing entry), if any. -/
structure FlushResult where
  syncQueue : Option (List Nat)
  scheduledImmediateFollowUp : Bool
  thrown : Option Nat
deriving DecidableEq

/-- The `try { for (; i < queue.length; i++) … } catch` body: on a throw at
index `i`, the remaining callbacks `syncQueue.slice(i + 1)` are kept, a
follow-up flush is scheduled at immediate priority, and the error is
rethrown; on completion `syncQueue = null`. -/
def flushLoop (throws : Nat → Bool) : List Nat → FlushResult
  | [] => ⟨none, false, none⟩
  | c :: rest =>
    if throws c then ⟨some rest, true, some c⟩
    else flushLoop throws rest

/-- `flushSyncCallbackQueueImpl`: a no-op when re-entered
(`isFlushingSyncQueue`) or when the queue is null, otherwise the guarded
flush loop.  (`isFlushingSyncQueue` is set on entry and cleared in the
`finally`, so it nets to its incoming value and is not part of the result.) -/
def flushSyncCallbackQueueImpl (throws : Nat → Bool)
    (syncQueue : Option (List Nat)) (isFlushingSyncQueue : Bool) :
    FlushResult :=
  if isFlushingSyncQueue = false ∧ syncQueue.isSome then
    match syncQueue with
    | some queue => flushLoop throws queue
    | none => ⟨syncQueue, false, none⟩
  else ⟨syncQueue, false, none⟩

theorem flushLoop_first_throw (throws : Nat → Bool) :
    ∀ (pre : List Nat) (c : Nat) (post : List Nat),
      (∀ x ∈ pre, throws x = false) → throws c = true →
      flushLoop throws (pre ++ c :: post) = ⟨some post, true, some c⟩ := by
  intro pre
  induction pre with
  | nil =>
    intro c post _ hc
    simp only [List.nil_append, flushLoop, hc, if_true]
  | cons u pre' ih =>
    intro c post h hc
    simp only [List.cons_append, flushLoop, h u (List.mem_cons_self u pre'),
      Bool.false_eq_true, if_false]
    exact ih c post (fun x hx => h x (List.mem_cons_of_mem u hx)) hc

/-- **C9** — Sync-queue flush error recovery: when a non-reentrant flush of
queue `pre ++ c :: post` hits its first throwing callback `c`, the entries
after the throwing one are kept as the new `syncQueue` (not discarded), a
follow-up flush is scheduled at immediate priority, and the error is rethrown
to the caller together with (i.e., after) that bookkeeping. -/
theorem c9_flushSyncCallbackQueue_error_recovery (throws : Nat → Bool)
    (pre : List Nat) (c : Nat) (post : List Nat)
    (hpre : ∀ x ∈ pre, throws x = false) (hc : throws c = true) :
    flushSyncCallbackQueueImpl throws (some (pre ++ c :: post)) false =
      ⟨some post, true, some c⟩ := by
  unfold flushSyncCallbackQueueImpl
  rw [if_pos ⟨rfl, rfl⟩]
  exact flushLoop_first_throw throws pre c post hpre hc

theorem c9_flushSyncCallbackQueue_error_recovery_witness :
    flushSyncCallbackQueueImpl (fun n => n == 1) (some ([0] ++ 1 :: [2]))
        false = ⟨some [2], true, some 1⟩ :=
  c9_flushSyncCallbackQueue_error_recovery (fun n => n == 1) [0] 1 [2]
    (by decide) (by decide)

/-! ## `computeExpirationForFiber` (C10) -/

/-- `ImmediatePriority = 99` (`SchedulerWithReactIntegration`). -/
def ImmediatePriority : Nat := 99

/-- `UserBlockingPriority = 98` -/
def UserBlockingPriority : Nat := 98

/-- `NormalPriority = 97` -/
def NormalPriority : Nat := 97

/-- `LowPriority = 96` -/
def LowPriority : Nat := 96

/-- `IdlePriority = 95` -/
def IdlePriority : Nat := 95

/-- `NoMode = 0b0000` (work-loop module). -/
def NoMode : Nat := 0

/-- `BlockingMode = 0b0010` -/
def BlockingMode : Nat := 2

/-- `ConcurrentMode = 0b0100` -/
def ConcurrentMode : Nat := 4

/-- `NoContext = 0b000000` (execution-context bit-field). -/
def NoContext : Nat := 0

/-- `RenderContext = 0b010000` -/
def RenderContext : Nat := 16

/-- Modelled from the spec: `Batched` sits just below the synchronous
sentinel. -/
def Batched : Int := Sync - 1

/-- Modelled from the spec: `Idle` is the minimal real priority above
"never". -/
def Idle : Int := 2

/-- Modelled from the spec: the `ExpirationClock` operations
(`ReactFiberExpirationTime` is external to these sources): the deferral-window
computations and the low-priority timeout constant.  They are opaque here —
nothing in C10 depends on their values. -/
structure ExpirationOps where
  LOW_PRIORITY_EXPIRATION : Int
  computeSuspenseExpiration : Int → Int → Int
  computeInteractiveExpiration : Int → Int
  computeAsyncExpiration : Int → Int

/-- The `expirationTime` computed from the suspense config or the scheduler
priority (the `let expirationTime; if (suspenseConfig !== null) … else switch
(priorityLevel) …` block of `computeExpirationForFiber`); `none` models the
`invariant(false, 'Expected a valid priority level')` throw.  JavaScript's
`suspenseConfig.timeoutMs | 0 || LOW_PRIORITY_EXPIRATION` is integer
truncation (identity on integral timeouts) followed by falsy-default. -/
def computedExpiration (ops : ExpirationOps) (currentTime : Int)
    (priorityLevel : Nat) (suspenseConfigTimeout : Option Int) : Option Int :=
  match suspenseConfigTimeout with
  | some timeoutMs =>
    some (ops.computeSuspenseExpiration currentTime
      (if timeoutMs = 0 then ops.LOW_PRIORITY_EXPIRATION else timeoutMs))
  | none =>
    if priorityLevel = ImmediatePriority then some Sync
    else if priorityLevel = UserBlockingPriority then
      some (ops.computeInteractiveExpiration currentTime)
    else if priorityLevel = NormalPriority ∨ priorityLevel = LowPriority then
      some (ops.computeAsyncExpiration currentTime)
    else if priorityLevel = IdlePriority then some Idle
    else none

/-- `computeExpirationForFiber(currentTime, fiber, suspenseConfig)`
(work-loop module).  The data it reads besides its arguments — the current
scheduler priority, the execution context, whether `workInProgressRoot` is
non-null and the global `renderExpirationTime` — are passed explicitly. -/
def computeExpirationForFiber (ops : ExpirationOps) (currentTime : Int)
    (fiberMode : Nat) (priorityLevel : Nat)
    (suspenseConfigTimeout : Option Int) (executionContext : Nat)
    (workInProgressRootExists : Bool) (renderExpirationTime : Int) :
    Option Int :=
  if fiberMode &&& BlockingMode = NoMode then some Sync
  else if fiberMode &&& ConcurrentMode = NoMode then
    some (if priorityLevel = ImmediatePriority then Sync else Batched)
  else if executionContext &&& RenderContext ≠ NoContext then
    -- Use whatever time we're already rendering
    some renderExpirationTime
  else
    match computedExpiration ops currentTime priorityLevel
        suspenseConfigTimeout with
    | none => none
    | some expirationTime =>
      -- If we're in the middle of rendering a tree, do not update at the
      -- same expiration time that is already rendering.
      some (if workInProgressRootExists = true ∧
          expirationTime = renderExpirationTime then
        expirationTime - 1
      else expirationTime)

/-- Concrete clock operations for the C10 statements. -/
def wOps : ExpirationOps :=
  { LOW_PRIORITY_EXPIRATION := 5000
    computeSuspenseExpiration := fun c t => c + t
    computeInteractiveExpiration := fun c => c + 150
    computeAsyncExpiration := fun c => c + 5000 }

/-- C10 counterexample — the claim's "an update scheduled while a render is in
progress never receives exactly the in-progress render's expiration time" is
false on the render-phase path: with a work-in-progress root and
`RenderContext` set, `computeExpirationForFiber` returns exactly the
in-progress `renderExpirationTime` (here `100`). -/
theorem c10_renderContext_counterexample :
    computeExpirationForFiber wOps 0 (BlockingMode ||| ConcurrentMode)
        NormalPriority none RenderContext true 100 = some 100 := by
  decide

/-- **C10** (amended) — Render-batch separation of new updates, on the path
that actually computes an expiration time from the current priority or
suspense config (concurrent-mode fiber, call not made from inside the render
phase): while a work-in-progress root exists, if the computed time equals the
time being rendered the function returns that time minus 1, and its result is
never exactly the in-progress render's expiration time; calls made from
within the render phase (`RenderContext`) instead return
`renderExpirationTime` itself. -/
theorem c10_computeExpirationForFiber_separate_batch (ops : ExpirationOps)
    (currentTime : Int) (fiberMode priorityLevel : Nat)
    (suspenseConfigTimeout : Option Int) (executionContext : Nat)
    (renderExpirationTime et : Int)
    (hblock : fiberMode &&& BlockingMode ≠ NoMode)
    (hconc : fiberMode &&& ConcurrentMode ≠ NoMode)
    (hctx : executionContext &&& RenderContext = NoContext)
    (hcomp : computedExpiration ops currentTime priorityLevel
      suspenseConfigTimeout = some et) :
    (et = renderExpirationTime →
      computeExpirationForFiber ops currentTime fiberMode priorityLevel
          suspenseConfigTimeout executionContext true renderExpirationTime =
        some (renderExpirationTime - 1)) ∧
      computeExpirationForFiber ops currentTime fiberMode priorityLevel
          suspenseConfigTimeout executionContext true renderExpirationTime ≠
        some renderExpirationTime := by
  have hE : computeExpirationForFiber ops currentTime fiberMode priorityLevel
      suspenseConfigTimeout executionContext true renderExpirationTime =
      some (if true = true ∧ et = renderExpirationTime then et - 1 else et) := by
    unfold computeExpirationForFiber
    rw [if_neg hblock, if_neg hconc, if_neg (fun h => h hctx), hcomp]
  constructor
  · intro heq
    rw [hE, if_pos ⟨rfl, heq⟩, heq]
  · rw [hE]
    by_cases heq : et = renderExpirationTime
    · rw [if_pos ⟨rfl, heq⟩]
      intro hcontra
      injection hcontra with h
      omega
    · rw [if_neg (fun hand => heq hand.2)]
      intro hcontra
      injection hcontra with h
      exact heq h

theorem c10_computeExpirationForFiber_separate_batch_witness :
    ((5000 : Int) = 5000 →
      computeExpirationForFiber wOps 0 6 NormalPriority none 0 true 5000 =
        some (5000 - 1)) ∧
      computeExpirationForFiber wOps 0 6 NormalPriority none 0 true 5000 ≠
        some 5000 :=
  c10_computeExpirationForFiber_separate_batch wOps 0 6 NormalPriority none 0
    5000 5000 (by decide) (by decide) (by decide) (by decide)

end React
